import Mathlib

/-!
# Verification of the nasdaq-order-book core

A shallow embedding of the order-book engine (`include/order_book.hpp`,
`src/order_book.cpp`), the A/B feed arbiter (`src/net/arbiter.cpp`), the ITCH
decoder (`src/itch/decoder.cpp`, `include/itch/messages.hpp`) and the symbol
table (`include/core/symbol_table.hpp`).

Machine integers are modelled as `Nat` with explicit reductions modulo
`2^16`, `2^32`, `2^64` at the points where the C++ types wrap.  Pointers into
the order pools are modelled as `Nat` indices into a `Nat → Order` store, with
`Option Nat` playing the role of a nullable pointer, exactly as the spec's §9
"orders as indices into the pool arena" re-architecture note describes the
pointer layout.  Uninitialised memory is modelled as zero-initialised; every
code path under verification writes each field before reading it.
-/

namespace NasdaqOB

/-- Update a `Nat`-indexed store at one index (a single pointer/array write). -/
def updf {α : Type} (f : Nat → α) (i : Nat) (v : α) : Nat → α :=
  fun j => if j = i then v else f j

/-- `uint16` wrap-around subtraction: `a - b` computed modulo `2^16`
(assumes `b ≤ 2^16`; all call sites subtract values below `2^16`). -/
def sub16 (a b : Nat) : Nat := (a + 2 ^ 16 - b) % 2 ^ 16

/-- `uint32` wrap-around subtraction modulo `2^32` (assumes `b ≤ 2^32`). -/
def sub32 (a b : Nat) : Nat := (a + 2 ^ 32 - b) % 2 ^ 32

/-! ## Constants from `include/order_book.hpp` -/

def MIN_PRICE : Nat := 40000
def MAX_PRICE : Nat := 60000
def PRICE_LEVELS : Nat := MAX_PRICE - MIN_PRICE + 1

def ULTRA_MIN_PRICE : Nat := 40000
def ULTRA_MAX_PRICE : Nat := 60000
def ULTRA_PRICE_LEVELS : Nat := ULTRA_MAX_PRICE - ULTRA_MIN_PRICE + 1

def ULTRA_HASH_SIZE : Nat := 65536

/-- `UltraHashTable::TOMBSTONE = 0xFFFFFFFFFFFFFFFF`. -/
def TOMBSTONE : Nat := 2 ^ 64 - 1

/-! ## `struct UltraOrder` (order_book.hpp lines 159-179) -/

/-- Packed order node: id and side share one `uint64`; `next` is the single
forward pointer of the intrusive per-level list (pool index, `none` = null). -/
structure UltraOrder where
  id_and_side : Nat := 0
  quantity : Nat := 0
  price : Nat := 0
  next : Option Nat := none
  deriving Repr, DecidableEq

namespace UltraOrder

/-- `get_id`: `id_and_side >> 1`. -/
def get_id (o : UltraOrder) : Nat := o.id_and_side / 2

/-- `get_side`: `(id_and_side & 1) ? 'B' : 'S'`. -/
def get_side (o : UltraOrder) : Char :=
  if o.id_and_side % 2 = 1 then 'B' else 'S'

/-- `set_id_side`: `id_and_side = (id << 1) | (side == 'B' ? 1 : 0)`, a
`uint64` store (hence the reduction modulo `2^64`). -/
def set_id_side (o : UltraOrder) (id : Nat) (side : Char) : UltraOrder :=
  { o with id_and_side := id * 2 % 2 ^ 64 + (if side = 'B' then 1 else 0) }

end UltraOrder

/-! ## `struct UltraPriceLevel` -/

structure UltraPriceLevel where
  total_quantity : Nat := 0
  order_count : Nat := 0
  first_order : Option Nat := none
  deriving Repr, DecidableEq

/-! ## `class UltraHashTable` (order_book.hpp lines 240-308)

Open-addressed table of `ULTRA_HASH_SIZE` entries with a probe bound of 64 and
tombstoned deletion.  An entry's `order` field is the stored pool index
(`none` models the null pointer in a `calloc`-zeroed or removed entry). -/

structure HashEntry where
  order_id : Nat := 0
  order : Option Nat := none
  deriving Repr, DecidableEq

/-- `ultra_hash`: `(uint32)(order_id * 0x9e3779b97f4a7c15 >> 32) & ULTRA_HASH_MASK`
on a `uint64` id. -/
def ultra_hash (order_id : Nat) : Nat :=
  order_id * 0x9e3779b97f4a7c15 % 2 ^ 64 / 2 ^ 32 % ULTRA_HASH_SIZE

/-- Probe loop of `ultra_insert`; `rem` is the number of probes left of the 64,
`i` the probe offset, `firstTomb` the remembered first tombstone slot. -/
def ultra_insert_go (entries : Nat → HashEntry) (order_id oi h : Nat) :
    (i : Nat) → (rem : Nat) → Option Nat → (Nat → HashEntry)
  | _, 0, firstTomb =>
      -- probe bound exceeded: overwrite at the first tombstone, else at h
      updf entries (firstTomb.getD (h % ULTRA_HASH_SIZE)) ⟨order_id, some oi⟩
  | i, rem + 1, firstTomb =>
      let idx := (h + i) % ULTRA_HASH_SIZE
      let k := (entries idx).order_id
      if k = 0 then
        updf entries (firstTomb.getD idx) ⟨order_id, some oi⟩
      else
        let ft := if k = TOMBSTONE ∧ firstTomb = none then some idx else firstTomb
        if k = order_id then
          updf entries idx ⟨k, some oi⟩
        else
          ultra_insert_go entries order_id oi h (i + 1) rem ft

/-- `ultra_insert(order_id, order)` with `order` a pool index. -/
def ultra_insert (entries : Nat → HashEntry) (order_id oi : Nat) :
    Nat → HashEntry :=
  ultra_insert_go entries (order_id % 2 ^ 64) oi (ultra_hash (order_id % 2 ^ 64)) 0 64 none

/-- Probe loop of `ultra_find`. -/
def ultra_find_go (entries : Nat → HashEntry) (order_id h : Nat) :
    (i : Nat) → (rem : Nat) → Option Nat
  | _, 0 => none
  | i, rem + 1 =>
      let idx := (h + i) % ULTRA_HASH_SIZE
      let k := (entries idx).order_id
      if k = order_id then (entries idx).order
      else if k = 0 then none
      else ultra_find_go entries order_id h (i + 1) rem

/-- `ultra_find(order_id)`: the stored pool index, `none` for null. -/
def ultra_find (entries : Nat → HashEntry) (order_id : Nat) : Option Nat :=
  ultra_find_go entries (order_id % 2 ^ 64) (ultra_hash (order_id % 2 ^ 64)) 0 64

/-- Probe loop of `ultra_remove`. -/
def ultra_remove_go (entries : Nat → HashEntry) (order_id h : Nat) :
    (i : Nat) → (rem : Nat) → (Nat → HashEntry)
  | _, 0 => entries
  | i, rem + 1 =>
      let idx := (h + i) % ULTRA_HASH_SIZE
      let k := (entries idx).order_id
      if k = order_id then updf entries idx ⟨TOMBSTONE, none⟩
      else if k = 0 then entries
      else ultra_remove_go entries order_id h (i + 1) rem

/-- `ultra_remove(order_id)`. -/
def ultra_remove (entries : Nat → HashEntry) (order_id : Nat) :
    Nat → HashEntry :=
  ultra_remove_go entries (order_id % 2 ^ 64) (ultra_hash (order_id % 2 ^ 64)) 0 64

/-! ## `class UltraOrderBook` (order_book.hpp lines 314-518)

The `UltraFastOrderPool` is the `pool`/`stack_top`/`capacity` triple:
`ultra_fast_acquire` returns the next slot or null once `stack_top` reaches
`capacity` (constructor default 1 000 000). -/

structure UltraBook where
  bid_levels : Nat → UltraPriceLevel
  ask_levels : Nat → UltraPriceLevel
  entries : Nat → HashEntry
  pool : Nat → UltraOrder
  stack_top : Nat
  capacity : Nat

/-- A freshly constructed book over an empty pool of the given capacity
(price-level arrays and hash table zeroed, as after `reset_pool`). -/
def UltraBook.mkEmpty (cap : Nat) : UltraBook :=
  { bid_levels := fun _ => {}
    ask_levels := fun _ => {}
    entries := fun _ => {}
    pool := fun _ => {}
    stack_top := 0
    capacity := cap }

/-- `ultra_price_to_index`: out-of-range prices fold to index 0. -/
def ultra_price_to_index (price : Nat) : Nat :=
  if price < ULTRA_MIN_PRICE ∨ ULTRA_MAX_PRICE < price then 0
  else price - ULTRA_MIN_PRICE

/-- Read the side's level array (`is_buy ? bid_levels_ : ask_levels_`). -/
def UltraBook.levels (b : UltraBook) (isBuy : Bool) : Nat → UltraPriceLevel :=
  if isBuy then b.bid_levels else b.ask_levels

/-- Write one price level on one side. -/
def UltraBook.setLevel (b : UltraBook) (isBuy : Bool) (idx : Nat)
    (lv : UltraPriceLevel) : UltraBook :=
  if isBuy then { b with bid_levels := updf b.bid_levels idx lv }
  else { b with ask_levels := updf b.ask_levels idx lv }

/-- `ultra_addOrder` (order_book.hpp lines 351-382): duplicate check, pool
acquire (silent drop on exhaustion), field packing, LIFO push into the level
(`ultra_add_to_level`), hash insert.  Parameters wrap at their C++ widths. -/
def ultra_addOrder (b : UltraBook) (orderId : Nat) (side : Char)
    (quantity price : Nat) : UltraBook :=
  if (ultra_find b.entries orderId).isSome then b
  else if b.capacity ≤ b.stack_top then b
  else
    let i := b.stack_top
    let p32 := price % 2 ^ 32
    let idx := ultra_price_to_index p32
    let isBuy := side = 'B'
    let lv := b.levels isBuy idx
    let o : UltraOrder :=
      { ({} : UltraOrder).set_id_side orderId side with
        quantity := quantity % 2 ^ 32, price := p32, next := lv.first_order }
    let lv' : UltraPriceLevel :=
      { total_quantity := (lv.total_quantity + quantity % 2 ^ 32) % 2 ^ 32
        order_count := (lv.order_count + 1) % 2 ^ 16
        first_order := some i }
    let b1 := { b with pool := updf b.pool i o, stack_top := i + 1 }
    let b2 := b1.setLevel isBuy idx lv'
    { b2 with entries := ultra_insert b2.entries orderId i }

/-- `ultra_executeOrder` (order_book.hpp lines 384-403): subtract
`min(executed_qty, quantity)` from order and level; on zero-out decrement
`order_count` only (no unlink, no hash removal). -/
def ultra_executeOrder (b : UltraBook) (orderId executed_qty : Nat) : UltraBook :=
  match ultra_find b.entries orderId with
  | none => b
  | some i =>
    let o := b.pool i
    let idx := ultra_price_to_index o.price
    let isBuy := o.get_side = 'B'
    let lv := b.levels isBuy idx
    let qty_to_remove := min (executed_qty % 2 ^ 32) o.quantity
    let q' := o.quantity - qty_to_remove
    let lv' : UltraPriceLevel :=
      { lv with total_quantity := sub32 lv.total_quantity qty_to_remove
                order_count := if q' = 0 then sub16 lv.order_count 1
                               else lv.order_count }
    (UltraBook.setLevel { b with pool := updf b.pool i { o with quantity := q' } }
      isBuy idx lv')

/-- `ultra_deleteOrder` (order_book.hpp lines 406-422): subtract the remaining
quantity, decrement `order_count`, zero the order (it stays linked), remove
from the hash. -/
def ultra_deleteOrder (b : UltraBook) (orderId : Nat) : UltraBook :=
  match ultra_find b.entries orderId with
  | none => b
  | some i =>
    let o := b.pool i
    let idx := ultra_price_to_index o.price
    let isBuy := o.get_side = 'B'
    let lv := b.levels isBuy idx
    let lv' : UltraPriceLevel :=
      { lv with total_quantity := sub32 lv.total_quantity o.quantity
                order_count := sub16 lv.order_count 1 }
    let b1 := UltraBook.setLevel
      { b with pool := updf b.pool i { o with quantity := 0 } } isBuy idx lv'
    { b1 with entries := ultra_remove b1.entries orderId }

/-- `ultra_replaceOrder` (order_book.hpp lines 425-441): inline delete of the
old id followed by `ultra_addOrder` with the inherited side. -/
def ultra_replaceOrder (b : UltraBook) (oldId newId newQty newPrice : Nat) :
    UltraBook :=
  match ultra_find b.entries oldId with
  | none => b
  | some i =>
    let o := b.pool i
    let side := o.get_side
    let idx := ultra_price_to_index o.price
    let isBuy := side = 'B'
    let lv := b.levels isBuy idx
    let lv' : UltraPriceLevel :=
      { lv with total_quantity := sub32 lv.total_quantity o.quantity
                order_count := sub16 lv.order_count 1 }
    let b1 := UltraBook.setLevel
      { b with pool := updf b.pool i { o with quantity := 0 } } isBuy idx lv'
    let b2 := { b1 with entries := ultra_remove b1.entries oldId }
    ultra_addOrder b2 newId side newQty newPrice

/-- Descending best-price scan: check index `n-1`, then `n-2`, …, then `0`. -/
def bestScanDown (lv : Nat → UltraPriceLevel) : Nat → Nat
  | 0 => 0
  | n + 1 =>
      if 0 < (lv n).total_quantity then ULTRA_MIN_PRICE + n
      else bestScanDown lv n

/-- Ascending best-price scan over `rem` indices starting at `i`. -/
def bestScanUp (lv : Nat → UltraPriceLevel) : (i : Nat) → (rem : Nat) → Nat
  | _, 0 => 0
  | i, rem + 1 =>
      if 0 < (lv i).total_quantity then ULTRA_MIN_PRICE + i
      else bestScanUp lv (i + 1) rem

/-- `ultra_getBestBid` (order_book.hpp lines 444-452): scan
`i = ULTRA_PRICE_LEVELS-1 … 0` for positive `total_quantity`. -/
def ultra_getBestBid (b : UltraBook) : Nat :=
  bestScanDown b.bid_levels ULTRA_PRICE_LEVELS

/-- `ultra_getBestAsk` (order_book.hpp lines 455-463): scan
`i = 0 … ULTRA_PRICE_LEVELS-1`. -/
def ultra_getBestAsk (b : UltraBook) : Nat :=
  bestScanUp b.ask_levels 0 ULTRA_PRICE_LEVELS

/-- Walk an intrusive `next` chain, collecting pool indices (fuel-bounded). -/
def ultraChain (pool : Nat → UltraOrder) : Option Nat → Nat → List Nat
  | none, _ => []
  | some _, 0 => []
  | some i, fuel + 1 => i :: ultraChain pool (pool i).next fuel

/-! ## `struct Order`, `struct FastPriceLevel`, global pool (order_book.cpp) -/

/-- Doubly linked order node of the standard/optimized books. -/
structure Order where
  id : Nat := 0
  side : Char := 'S'
  quantity : Nat := 0
  price : Nat := 0
  next : Option Nat := none
  prev : Option Nat := none
  deriving Repr, DecidableEq

structure FastPriceLevel where
  quantity : Nat := 0
  order_count : Nat := 0
  active : Nat := 0
  first_order : Option Nat := none
  deriving Repr, DecidableEq

/-- `acquire_order` (order_book.cpp lines 13-18): the global bump pool of
1 000 000 `Order` slots.  On exhaustion the index is reset to 0 and slots are
recycled — it never fails.  Returns (slot given out, new pool index). -/
def acquire_order (g_order_pool_index : Nat) : Nat × Nat :=
  if 1000000 ≤ g_order_pool_index then (0, 1)
  else (g_order_pool_index, g_order_pool_index + 1)

/-! ## `class OptimizedOrderBook` (order_book.hpp lines 95-122, order_book.cpp)

`FastHashTable` wraps `std::unordered_map<uint64_t, Order*>`; we model it as an
association list from id to pool slot.  The global `g_order_pool_storage` /
`g_order_pool_index` pair is carried inside the book state (one book in use). -/

structure OptBook where
  bid_levels : Nat → FastPriceLevel
  ask_levels : Nat → FastPriceLevel
  order_hash : List (Nat × Nat)
  pool : Nat → Order
  pool_index : Nat

def OptBook.mkEmpty : OptBook :=
  { bid_levels := fun _ => {}
    ask_levels := fun _ => {}
    order_hash := []
    pool := fun _ => {}
    pool_index := 0 }

/-- `FastHashTable::find`. -/
def hashFind (h : List (Nat × Nat)) (id : Nat) : Option Nat :=
  (h.find? (fun p => p.1 == id)).map (·.2)

/-- `FastHashTable::insert` (`hash_map_[order_id] = order`): assign or add. -/
def hashInsert (h : List (Nat × Nat)) (id i : Nat) : List (Nat × Nat) :=
  if (h.find? (fun p => p.1 == id)).isSome then
    h.map (fun p => if p.1 == id then (id, i) else p)
  else (id, i) :: h

/-- `FastHashTable::remove` (`hash_map_.erase`). -/
def hashRemove (h : List (Nat × Nat)) (id : Nat) : List (Nat × Nat) :=
  h.filter (fun p => ¬ p.1 = id)

/-- `price_to_index` (order_book.hpp lines 101-104): same fold-to-0. -/
def price_to_index (price : Nat) : Nat :=
  if price < MIN_PRICE ∨ MAX_PRICE < price then 0 else price - MIN_PRICE

def OptBook.levels (b : OptBook) (isBuy : Bool) : Nat → FastPriceLevel :=
  if isBuy then b.bid_levels else b.ask_levels

def OptBook.setLevel (b : OptBook) (isBuy : Bool) (idx : Nat)
    (lv : FastPriceLevel) : OptBook :=
  if isBuy then { b with bid_levels := updf b.bid_levels idx lv }
  else { b with ask_levels := updf b.ask_levels idx lv }

/-- `add_to_level_fast` (order_book.cpp lines 29-41): bump aggregates, LIFO
push of slot `i` at the front of the level's doubly linked list.  The pool
writes follow the C++ statement order (`order->prev = nullptr` last). -/
def add_to_level_fast (b : OptBook) (i : Nat) (isBuy : Bool) (idx : Nat) :
    OptBook :=
  let o := b.pool i
  let lv := b.levels isBuy idx
  let pool1 := updf b.pool i { o with next := lv.first_order }
  let pool2 := match lv.first_order with
    | some j => updf pool1 j { pool1 j with prev := some i }
    | none => pool1
  let pool3 := updf pool2 i { pool2 i with prev := none }
  OptBook.setLevel { b with pool := pool3 } isBuy idx
    { quantity := (lv.quantity + o.quantity) % 2 ^ 32
      order_count := (lv.order_count + 1) % 2 ^ 16
      active := 1
      first_order := some i }

/-- `remove_from_level_fast` (order_book.cpp lines 43-61): unlink slot `i`,
drop aggregates; when the level's quantity reaches zero, `active` is cleared
and `first_order` nulled. -/
def remove_from_level_fast (b : OptBook) (i : Nat) (isBuy : Bool) (idx : Nat) :
    OptBook :=
  let o := b.pool i
  let lv := b.levels isBuy idx
  let q' := sub32 lv.quantity o.quantity
  let c' := sub16 lv.order_count 1
  let pool1 := match o.prev with
    | some p => updf b.pool p { b.pool p with next := o.next }
    | none => b.pool
  let first1 := match o.prev with
    | some _ => lv.first_order
    | none => o.next
  let pool2 := match (pool1 i).next with
    | some n => updf pool1 n { pool1 n with prev := (pool1 i).prev }
    | none => pool1
  let lv' : FastPriceLevel :=
    if q' = 0 then { quantity := q', order_count := c', active := 0, first_order := none }
    else { quantity := q', order_count := c', active := lv.active, first_order := first1 }
  OptBook.setLevel { b with pool := pool2 } isBuy idx lv'

/-- `OptimizedOrderBook::addOrder` (order_book.cpp lines 279-307). -/
def optAddOrder (b : OptBook) (orderId : Nat) (side : Char)
    (quantity price : Nat) : OptBook :=
  if (hashFind b.order_hash (orderId % 2 ^ 64)).isSome then b
  else
    let (i, pidx) := acquire_order b.pool_index
    let o : Order :=
      { id := orderId % 2 ^ 64, side := side, quantity := quantity % 2 ^ 32
        price := price % 2 ^ 32, next := none, prev := none }
    let b1 := { b with pool := updf b.pool i o, pool_index := pidx }
    let b2 := add_to_level_fast b1 i (side = 'B') (price_to_index (price % 2 ^ 32))
    { b2 with order_hash := hashInsert b2.order_hash (orderId % 2 ^ 64) i }

/-- `OptimizedOrderBook::deleteOrder` (order_book.cpp lines 329-342). -/
def optDeleteOrder (b : OptBook) (orderId : Nat) : OptBook :=
  match hashFind b.order_hash (orderId % 2 ^ 64) with
  | none => b
  | some i =>
    let o := b.pool i
    let b1 := remove_from_level_fast b i (o.side = 'B') (price_to_index o.price)
    { b1 with order_hash := hashRemove b1.order_hash (orderId % 2 ^ 64) }

/-- `OptimizedOrderBook::executeOrder` (order_book.cpp lines 309-327):
subtract `min(executed_qty, quantity)`; on zero-out, delegate to
`deleteOrder`. -/
def optExecuteOrder (b : OptBook) (orderId executed_qty : Nat) : OptBook :=
  match hashFind b.order_hash (orderId % 2 ^ 64) with
  | none => b
  | some i =>
    let o := b.pool i
    let qtr := min (executed_qty % 2 ^ 32) o.quantity
    let isBuy := o.side = 'B'
    let idx := price_to_index o.price
    let lv := b.levels isBuy idx
    let b1 := OptBook.setLevel b isBuy idx
      { lv with quantity := sub32 lv.quantity qtr }
    let b2 := { b1 with pool := updf b1.pool i { o with quantity := o.quantity - qtr } }
    if o.quantity - qtr = 0 then optDeleteOrder b2 orderId else b2

/-- `OptimizedOrderBook::replaceOrder` (order_book.cpp lines 344-384):
price change relinks the same node; same price updates it in place. -/
def optReplaceOrder (b : OptBook) (oldId newId newQty newPrice : Nat) :
    OptBook :=
  match hashFind b.order_hash (oldId % 2 ^ 64) with
  | none => b
  | some i =>
    let o := b.pool i
    let isBuy := o.side = 'B'
    if o.price ≠ newPrice % 2 ^ 32 then
      let b1 := remove_from_level_fast b i isBuy (price_to_index o.price)
      let node : Order :=
        { b1.pool i with
          id := newId % 2 ^ 64
          quantity := newQty % 2 ^ 32
          price := newPrice % 2 ^ 32
          next := none
          prev := none }
      let b2 := { b1 with pool := updf b1.pool i node }
      let b3 := add_to_level_fast b2 i isBuy (price_to_index (newPrice % 2 ^ 32))
      { b3 with order_hash :=
          hashInsert (hashRemove b3.order_hash (oldId % 2 ^ 64)) (newId % 2 ^ 64) i }
    else
      let idx := price_to_index (newPrice % 2 ^ 32)
      let lv := b.levels isBuy idx
      let b1 := OptBook.setLevel b isBuy idx
        { lv with quantity := (sub32 lv.quantity o.quantity + newQty % 2 ^ 32) % 2 ^ 32 }
      let node : Order := { o with id := newId % 2 ^ 64, quantity := newQty % 2 ^ 32 }
      let b2 := { b1 with pool := updf b1.pool i node }
      { b2 with order_hash :=
          hashInsert (hashRemove b2.order_hash (oldId % 2 ^ 64)) (newId % 2 ^ 64) i }

/-- Descending scan of `OptimizedOrderBook::getBestBid` (order_book.cpp lines
386-394): the C++ loop runs `i = PRICE_LEVELS-1; i > 0; --i`, so `n` here is
the lowest index still checked minus… precisely: `optScanDown lv n` checks
indices `n, n-1, …, 1` and never index 0. -/
def optScanDown (lv : Nat → FastPriceLevel) : Nat → Nat
  | 0 => 0
  | n + 1 =>
      if (lv (n + 1)).active ≠ 0 ∧ 0 < (lv (n + 1)).quantity then (n + 1) + MIN_PRICE
      else optScanDown lv n

/-- Ascending scan of `OptimizedOrderBook::getBestAsk` (order_book.cpp lines
396-404) over `rem` indices starting at `i`. -/
def optScanUp (lv : Nat → FastPriceLevel) : (i : Nat) → (rem : Nat) → Nat
  | _, 0 => 0
  | i, rem + 1 =>
      if (lv i).active ≠ 0 ∧ 0 < (lv i).quantity then i + MIN_PRICE
      else optScanUp lv (i + 1) rem

def optGetBestBid (b : OptBook) : Nat := optScanDown b.bid_levels (PRICE_LEVELS - 1)

def optGetBestAsk (b : OptBook) : Nat := optScanUp b.ask_levels 0 PRICE_LEVELS

/-- Walk a doubly linked level list through `next`, collecting pool indices. -/
def optChain (pool : Nat → Order) : Option Nat → Nat → List Nat
  | none, _ => []
  | some _, 0 => []
  | some i, fuel + 1 => i :: optChain pool (pool i).next fuel

/-! ## `class Arbiter` (net/arbiter.hpp, net/arbiter.cpp)

A message is abstracted to its 16-bit tracking number (the only message
content the arbiter inspects, via `tracking_number_from`); the `SmallMsg` copy
held by a gap entry is therefore the tracking number itself.  The `std::map`
keyed by tracking number is an association list sorted ascending by key, and
`std::chrono` instants are `Nat` timestamps: a call's `Clock::now()` is the
`now` argument of `next_message`.  The two `PopFn` feed callbacks deliver, per
call, the lists `arrA`/`arrB` of newly arrived (already message-split)
tracking numbers, which `load_feed_messages` appends to the per-feed deques;
they are polled only on the code path that reaches `load_feed_messages`. -/

structure ArbiterMetrics where
  gap_detected : Nat := 0
  gap_filled : Nat := 0
  dup_dropped : Nat := 0
  gap_dropped_ttl : Nat := 0
  gap_dropped_capacity : Nat := 0
  deriving Repr, DecidableEq

/-- One gap-buffer entry: `{message copy (its tracking number), timestamp}`. -/
structure GapItem where
  tn : Nat
  ts : Nat
  deriving Repr, DecidableEq

/-- `std::map::emplace`: sorted insert that does nothing when the key exists. -/
def gapInsert (tn ts : Nat) : List GapItem → List GapItem
  | [] => [⟨tn, ts⟩]
  | e :: rest =>
      if tn < e.tn then ⟨tn, ts⟩ :: e :: rest
      else if tn = e.tn then e :: rest
      else e :: gapInsert tn ts rest

/-- `std::map::find` by key. -/
def gapFind (tn : Nat) : List GapItem → Option GapItem
  | [] => none
  | e :: rest => if e.tn = tn then some e else gapFind tn rest

/-- `std::map::erase` by key. -/
def gapErase (tn : Nat) : List GapItem → List GapItem
  | [] => []
  | e :: rest => if e.tn = tn then rest else e :: gapErase tn rest

structure Arbiter where
  expected : Nat := 1
  gap : List GapItem := []
  gap_capacity : Nat := 65536
  ttl : Nat := 50
  metrics : ArbiterMetrics := {}
  bufA : List Nat := []
  bufB : List Nat := []
  ready : List Nat := []
  deriving Repr, DecidableEq

/-- `Arbiter::prune_expired` (arbiter.cpp lines 34-43): repeatedly drop
`gap_.begin()` (the lowest key) while its age exceeds the TTL, counting each
drop; stop at the first non-expired lowest entry. -/
def prune_expired (now ttl : Nat) :
    List GapItem → ArbiterMetrics → List GapItem × ArbiterMetrics
  | [], m => ([], m)
  | e :: rest, m =>
      if ttl < now - e.ts then
        prune_expired now ttl rest
          { m with gap_dropped_ttl := m.gap_dropped_ttl + 1 }
      else (e :: rest, m)

/-- The in-order drain loop of `pick_next` (arbiter.cpp lines 82-89): while
the gap map holds `expected`, move that entry to `ready` and advance.  Each
iteration erases one entry, so `gap.length` fuel is exact. -/
def drainGaps : (fuel : Nat) → (expected : Nat) → List GapItem → List Nat →
    ArbiterMetrics → Nat × List GapItem × List Nat × ArbiterMetrics
  | 0, e, g, r, m => (e, g, r, m)
  | fuel + 1, e, g, r, m =>
      match gapFind e g with
      | none => (e, g, r, m)
      | some it =>
          drainGaps fuel (e + 1) (gapErase e g) (r ++ [it.tn])
            { m with gap_filled := m.gap_filled + 1 }

/-- Body of `pick_next` after a message `tn` has been popped from a feed
(arbiter.cpp lines 72-90). -/
def processMsg (now tn : Nat) (s : Arbiter) : Option Nat × Arbiter :=
  if tn = 0 then (some tn, s)
  else if tn < s.expected then
    (none, { s with metrics :=
      { s.metrics with dup_dropped := s.metrics.dup_dropped + 1 } })
  else if s.expected < tn then
    let gm : List GapItem × ArbiterMetrics :=
      if s.gap_capacity ≤ s.gap.length then
        (s.gap.tail, { s.metrics with
          gap_dropped_capacity := s.metrics.gap_dropped_capacity + 1 })
      else (s.gap, s.metrics)
    (none, { s with
             gap := gapInsert tn now gm.1
             metrics := { gm.2 with gap_detected := gm.2.gap_detected + 1 } })
  else
    let d := drainGaps s.gap.length (s.expected + 1) s.gap s.ready s.metrics
    (some tn, { s with
                expected := d.1
                gap := d.2.1
                ready := d.2.2.1
                metrics := d.2.2.2 })

/-- Pop the front of feed A or feed B and process it. -/
def consumeFrom (now : Nat) (srcIsA : Bool) (s : Arbiter) :
    Option Nat × Arbiter :=
  match (if srcIsA then s.bufA else s.bufB) with
  | [] => (none, s)
  | tn :: rest =>
      let s1 := if srcIsA then { s with bufA := rest } else { s with bufB := rest }
      processMsg now tn s1

/-- `pick_next(a, b)` (arbiter.cpp lines 62-91): `firstIsA` says which feed
plays the role of `a`.  With both fronts available the smaller tracking number
wins, ties to `a`. -/
def pick_next (now : Nat) (firstIsA : Bool) (s : Arbiter) :
    Option Nat × Arbiter :=
  let a := if firstIsA then s.bufA else s.bufB
  let b := if firstIsA then s.bufB else s.bufA
  match a, b with
  | [], [] => (none, s)
  | x :: _, y :: _ =>
      if x ≤ y then consumeFrom now firstIsA s
      else consumeFrom now (!firstIsA) s
  | _ :: _, [] => consumeFrom now firstIsA s
  | [], _ :: _ => consumeFrom now (!firstIsA) s

/-- `Arbiter::next_message` (arbiter.cpp lines 47-96). -/
def next_message (now : Nat) (arrA arrB : List Nat) (s : Arbiter) :
    Option Nat × Arbiter :=
  let pm := prune_expired now s.ttl s.gap s.metrics
  let s1 := { s with gap := pm.1, metrics := pm.2 }
  match s1.ready with
  | r :: rs => (some r, { s1 with ready := rs })
  | [] =>
      let s2 := { s1 with bufA := s1.bufA ++ arrA, bufB := s1.bufB ++ arrB }
      match pick_next now true s2 with
      | (some m, s3) => (some m, s3)
      | (none, s3) => pick_next now false s3

/-- Repeated `next_message` calls at one instant with no new arrivals,
concatenating the returned messages. -/
def arbSteps : Nat → Arbiter → List Nat × Arbiter
  | 0, s => ([], s)
  | fuel + 1, s =>
      let r := next_message 0 [] [] s
      let rest := arbSteps fuel r.2
      (r.1.toList ++ rest.1, rest.2)

/-! ## `class SymbolTable` (core/symbol_table.hpp)

A symbol is its list of byte values.  `storage_` keeps the raw 8 bytes per
id; the `unordered_map` keyed by trimmed `string_view`s into that storage is
an association list whose key is the trimmed byte list (the stored view
`string_view(slot.data(), sv.size())` equals the trimmed input, since
trimming only removes a suffix).  `next_id_` is a `uint16`, so the
post-increment wraps modulo `2^16`. -/

structure SymbolTable where
  map : List (List Nat × Nat) := []
  storage : Nat → List Nat := fun _ => []
  next_id : Nat := 1
  deriving Inhabited

/-- Strip trailing `' '` (byte 32) — the `remove_suffix` loop. -/
def trimSpaces (s : List Nat) : List Nat :=
  (s.reverse.dropWhile (fun b => b == 32)).reverse

/-- `SymbolTable::get_or_intern` (symbol_table.hpp lines 19-34). -/
def get_or_intern (st : SymbolTable) (sym8 : List Nat) : Nat × SymbolTable :=
  let sv := trimSpaces sym8
  match st.map.find? (fun p => p.1 == sv) with
  | some p => (p.2, st)
  | none =>
      let id := st.next_id
      (id, { map := (sv, id) :: st.map
             storage := updf st.storage id sym8
             next_id := (st.next_id + 1) % 2 ^ 16 })

/-- Intern a list of symbols left to right, collecting the returned ids. -/
def internAll (st : SymbolTable) : List (List Nat) → List Nat × SymbolTable
  | [] => ([], st)
  | s :: rest =>
      let r := get_or_intern st s
      let r2 := internAll r.2 rest
      (r.1 :: r2.1, r2.2)

/-! ## ITCH decoder (include/itch/messages.hpp, src/itch/decoder.cpp)

A raw message is its list of byte values; multi-byte fields are read
big-endian (`ntohs`/`ntohl`/`bswap64` of the `memcpy`-ed packed fields). -/

/-- `itch_message_size` (messages.hpp lines 122-135): the per-type `sizeof`
of the packed message structs; 0 for an unknown type byte. -/
def itch_message_size (type : Nat) : Nat :=
  if type = 83 then 12        -- 'S' SystemEventMessage
  else if type = 82 then 39   -- 'R' StockDirectoryMessage
  else if type = 65 then 36   -- 'A' AddOrderMessage
  else if type = 70 then 40   -- 'F' AddOrderWithMPIDMessage
  else if type = 69 then 31   -- 'E' OrderExecutedMessage
  else if type = 67 then 36   -- 'C' OrderExecutedWithPriceMessage
  else if type = 88 then 23   -- 'X' OrderCancelMessage
  else if type = 68 then 19   -- 'D' OrderDeleteMessage
  else if type = 85 then 35   -- 'U' OrderReplaceMessage
  else 0

/-- Big-endian read of `len` bytes at offset `off`. -/
def readBE (bytes : List Nat) (off len : Nat) : Nat :=
  ((bytes.drop off).take len).foldl (fun acc b => acc * 256 + b % 256) 0

/-- `core::ItchEvent` (core/event.hpp): the five-variant event union. -/
inductive ItchEvent where
  | add (id : Nat) (side : Nat) (qty : Nat) (px : Nat) (sym_id : Nat)
  | exec (id : Nat) (exec_qty : Nat)
  | cancel (id : Nat) (qty : Nat)
  | del (id : Nat)
  | replace (old_id : Nat) (new_id : Nat) (qty : Nat) (px : Nat) (sym_id : Nat)
  deriving Repr, DecidableEq

/-- `itch::DecodeResult` (decoder.hpp lines 13-16). -/
structure DecodeResult where
  event : Option ItchEvent := none
  message_size : Nat := 0
  deriving Repr, DecidableEq

/-- `Decoder::decode_one` (decoder.cpp lines 22-77).  Field offsets follow
the packed structs: common header 5 bytes, timestamp 6 bytes, so the order
reference number sits at offset 11. -/
def decode_one (st : SymbolTable) (bytes : List Nat) :
    DecodeResult × SymbolTable :=
  if bytes.length < 5 then ({}, st)
  else
    let type := bytes.headD 0 % 256
    let msize := itch_message_size type
    if msize = 0 ∨ bytes.length < msize then ({ message_size := 0 }, st)
    else if type = 65 ∨ type = 70 then -- 'A' / 'F': AddEvt, interns the symbol
      let r := get_or_intern st ((bytes.drop 24).take 8)
      ({ event := some (.add (readBE bytes 11 8) (bytes.getD 19 0 % 256)
            (readBE bytes 20 4) (readBE bytes 32 4) r.1)
         message_size := msize }, r.2)
    else if type = 69 ∨ type = 67 then -- 'E' / 'C': ExecEvt
      ({ event := some (.exec (readBE bytes 11 8) (readBE bytes 19 4))
         message_size := msize }, st)
    else if type = 88 then -- 'X': CancelEvt
      ({ event := some (.cancel (readBE bytes 11 8) (readBE bytes 19 4))
         message_size := msize }, st)
    else if type = 68 then -- 'D': DeleteEvt
      ({ event := some (.del (readBE bytes 11 8)), message_size := msize }, st)
    else if type = 85 then -- 'U': ReplaceEvt with sym_id 0
      ({ event := some (.replace (readBE bytes 11 8) (readBE bytes 19 8)
            (readBE bytes 27 4) (readBE bytes 31 4) 0)
         message_size := msize }, st)
    else -- 'S', 'R': no order-book event
      ({ event := none, message_size := msize }, st)

/-! ## Concrete states used by counterexamples and witnesses -/

/-- Ultra book with one resting bid: `add(1, 'B', 100, 50000)`. -/
def bAdd1 : UltraBook := ultra_addOrder (UltraBook.mkEmpty 1000000) 1 'B' 100 50000

/-- `bAdd1` after `exec(1, 100)`: order 1 rests (still indexed, still linked)
with quantity 0. -/
def bZero : UltraBook := ultra_executeOrder bAdd1 1 100

/-- Optimized book with two bids at price 50000: slot 0 = id 1, slot 1 = id 2;
the level list is `[2, 1]` (LIFO push-front). -/
def bTwo : OptBook :=
  optAddOrder (optAddOrder OptBook.mkEmpty 1 'B' 10 50000) 2 'B' 20 50000

/-- `replace(1, 11, 15, 50000)` on `bTwo` — a same-price replace. -/
def bTwoRepl : OptBook := optReplaceOrder bTwo 1 11 15 50000

/-- `delete(1); add(11, 'B', 15, 50000)` on `bTwo`. -/
def bTwoDelAdd : OptBook :=
  optAddOrder (optDeleteOrder bTwo 1) 11 'B' 15 50000

/-- Optimized book with a single bid resting at exactly `MIN_PRICE`. -/
def bMinBid : OptBook := optAddOrder OptBook.mkEmpty 1 'B' 100 40000

/-- Ultra book with a single bid resting at exactly `ULTRA_MIN_PRICE`. -/
def bMinBidU : UltraBook := ultra_addOrder (UltraBook.mkEmpty 1000000) 1 'B' 100 40000

/-- Optimized/standard-book state whose shared global pool index has reached
the 1 000 000 capacity (the state after 1 000 000 `acquire_order` calls). -/
def bPoolFull : OptBook := { OptBook.mkEmpty with pool_index := 1000000 }

/-- Ultra book whose `UltraFastOrderPool` is exhausted: `stack_top` has
reached the default capacity 1 000 000 (the state after 1 000 000 adds). -/
def bPoolFullU : UltraBook :=
  { UltraBook.mkEmpty 1000000 with stack_top := 1000000 }

/-- Arbiter trace for the TTL prune: tracking number 100 arrives on feed A at
time 0, tracking number 50 at time 40, and a third call observes the gap
buffer at time 60 (TTL 50). -/
def aGap0 : Arbiter := { gap_capacity := 65536, ttl := 50 }

def aGap1 : Arbiter := (next_message 0 [100] [] aGap0).2

def aGap2 : Arbiter := (next_message 40 [50] [] aGap1).2

def aGap3 : Arbiter := (next_message 60 [] [] aGap2).2

/-- Arbiter with gap capacity 1; feed A alone delivers `2, 3, 1`. -/
def aCap1 : Arbiter := { bufA := [2, 3, 1], bufB := [], gap_capacity := 1, ttl := 50 }

/-- The `k`-th test symbol: 8 bytes encoding `k` base 256, padded with byte 1
(not a space, so trimming is the identity); injective below `2^24`. -/
def symOf (k : Nat) : List Nat :=
  [k % 256, k / 256 % 256, k / 65536 % 256, 1, 1, 1, 1, 1]

/-- The first tracking number still owed to the caller: entries already moved
to `ready` are emitted on later calls, so the run has durably produced
everything below `expected - ready.length`. -/
def arbFirstPending (s : Arbiter) : Nat := s.expected - s.ready.length

/-- Termination measure for a completeness run: each productive
`next_message` call strictly decreases it. -/
def arbMeasure (s : Arbiter) : Nat :=
  2 * (s.bufA.length + s.bufB.length) + s.ready.length + s.gap.length

/-- Invariant of a completeness run over tracking numbers `1 … N` with all
arrivals at time 0: `expected` stays in `[1, N+1]`; `ready` is the contiguous
run just below `expected`; buffered tracking numbers stay in `[1, N]`; the
gap buffer is strictly sorted, holds keys in `[2, N]` stamped at time 0,
never holds `expected`; and every not-yet-produced tracking number is still
available on a feed or in the gap buffer. -/
def ArbInv (N : Nat) (s : Arbiter) : Prop :=
  1 ≤ s.expected ∧ s.expected ≤ N + 1 ∧
  s.ready.length ≤ s.expected - 1 ∧
  s.ready = List.range' (s.expected - s.ready.length) s.ready.length ∧
  (∀ x ∈ s.bufA, 1 ≤ x ∧ x ≤ N) ∧
  (∀ x ∈ s.bufB, 1 ≤ x ∧ x ≤ N) ∧
  List.Pairwise (fun a b : GapItem => a.tn < b.tn) s.gap ∧
  (∀ e ∈ s.gap, 2 ≤ e.tn ∧ e.tn ≤ N ∧ e.ts = 0) ∧
  (∀ e ∈ s.gap, e.tn ≠ s.expected) ∧
  (∀ k, 1 ≤ k → k ≤ N → s.expected ≤ k →
    k ∈ s.bufA ∨ k ∈ s.bufB ∨ ∃ e ∈ s.gap, e.tn = k)

/-- The hit condition of the optimized best-price scans:
`levels[i].active && levels[i].quantity > 0`. -/
def optLevelHit (lv : Nat → FastPriceLevel) (i : Nat) : Prop :=
  (lv i).active ≠ 0 ∧ 0 < (lv i).quantity

instance (lv : Nat → FastPriceLevel) (i : Nat) : Decidable (optLevelHit lv i) := by
  unfold optLevelHit
  infer_instance

/-! ## Operation sequences on the `UltraOrderBook`

The book's public mutators as an operation type, with a decidable
per-operation safety check ruling out the silent numeric wraps the source
allows: a zero-quantity add (`quantity % 2^32 = 0`), a 16-bit
`order_count` overflow, and an execute/delete/replace aimed at an order
whose remaining quantity is already zero (such orders stay in the hash
after `ultra_executeOrder` zeroes them, so the source would decrement the
level count again). -/

inductive UltraOp where
  | add (orderId : Nat) (side : Char) (quantity price : Nat)
  | exec (orderId executed_qty : Nat)
  | del (orderId : Nat)
  | repl (oldId newId newQty newPrice : Nat)
  deriving Repr, DecidableEq

/-- Dispatch one operation to the corresponding `UltraOrderBook` method. -/
def applyUltraOp (b : UltraBook) : UltraOp → UltraBook
  | .add orderId side quantity price => ultra_addOrder b orderId side quantity price
  | .exec orderId executed_qty => ultra_executeOrder b orderId executed_qty
  | .del orderId => ultra_deleteOrder b orderId
  | .repl oldId newId newQty newPrice =>
      ultra_replaceOrder b oldId newId newQty newPrice

/-- Apply a whole operation sequence left to right. -/
def applyUltraOps (b : UltraBook) : List UltraOp → UltraBook
  | [] => b
  | op :: rest => applyUltraOps (applyUltraOp b op) rest

/-- Safety of one `ultra_addOrder` call: positive post-truncation quantity
and a level count that will not wrap `uint16`. -/
def ultraAddSafe (b : UltraBook) (side : Char) (quantity price : Nat) : Bool :=
  decide (0 < quantity % 2 ^ 32) &&
    decide ((b.levels (decide (side = 'B'))
        (ultra_price_to_index (price % 2 ^ 32))).order_count < 2 ^ 16 - 1)

/-- Safety of an operation that targets an existing order: if the hash
lookup succeeds, the stored order must still have positive quantity. -/
def ultraTargetSafe (b : UltraBook) (orderId : Nat) : Bool :=
  match ultra_find b.entries orderId with
  | some i => decide (0 < (b.pool i).quantity)
  | none => true

/-- Per-operation safety, checked on the state the operation runs in;
`repl`'s embedded add is checked on the state its inline delete leaves. -/
def ultraOpSafe (b : UltraBook) : UltraOp → Bool
  | .add _ side quantity price => ultraAddSafe b side quantity price
  | .exec orderId _ => ultraTargetSafe b orderId
  | .del orderId => ultraTargetSafe b orderId
  | .repl oldId _ newQty newPrice =>
      ultraTargetSafe b oldId &&
        (match ultra_find b.entries oldId with
         | some i => ultraAddSafe (ultra_deleteOrder b oldId)
             ((b.pool i).get_side) newQty newPrice
         | none => true)

/-- Every operation of the sequence is safe on the state it runs in. -/
def ultraSafeRun (b : UltraBook) : List UltraOp → Bool
  | [] => true
  | op :: rest => ultraOpSafe b op && ultraSafeRun (applyUltraOp b op) rest

/-- `l` is exactly the intrusive list hanging off `first`: the traversal
visits the indices of `l` in order and ends at a null pointer. -/
def IsChain (pool : Nat → UltraOrder) : Option Nat → List Nat → Prop
  | none, [] => True
  | some i, j :: rest => i = j ∧ IsChain pool (pool i).next rest
  | _, _ => False

/-- Ghost description of an `UltraOrderBook` state: per side and price
index the exact linked list, with the bookkeeping facts the level-count
invariant rides on — chain members are allocated, live on the matching
level, are not shared between levels, and every pool index stored in the
hash table sits on the chain of its own order's level. -/
def UltraCountInv (b : UltraBook) : Prop :=
  ∃ ch : Bool → Nat → List Nat,
    (∀ s idx, IsChain b.pool (b.levels s idx).first_order (ch s idx)) ∧
    (∀ s idx, ∀ i ∈ ch s idx, i < b.stack_top ∧
      ultra_price_to_index (b.pool i).price = idx ∧
      (b.pool i).get_side = (if s then 'B' else 'S')) ∧
    (∀ s idx, (ch s idx).Nodup) ∧
    (∀ s idx s' idx' i, i ∈ ch s idx → i ∈ ch s' idx' → s = s' ∧ idx = idx') ∧
    (∀ s idx, (b.levels s idx).order_count =
      (ch s idx).countP (fun i => decide (0 < (b.pool i).quantity))) ∧
    (∀ s idx, (b.levels s idx).order_count < 2 ^ 16) ∧
    (∀ e j, (b.entries e).order = some j →
      j ∈ ch (decide ((b.pool j).get_side = 'B'))
        (ultra_price_to_index (b.pool j).price))

/-- Concrete safe run for the count invariant: one resting bid, partially
executed. -/
def c1Ops : List UltraOp := [.add 1 'B' 100 50000, .exec 1 60]

/-! ## Helper lemmas -/

theorem updf_self {α : Type} (f : Nat → α) (i : Nat) : updf f i (f i) = f := by
  funext j
  unfold updf
  split <;> simp_all

theorem updf_apply_ne {α : Type} (f : Nat → α) (i j : Nat) (v : α) (h : j ≠ i) :
    updf f i v j = f j := by
  simp [updf, h]

theorem updf_apply_self {α : Type} (f : Nat → α) (i : Nat) (v : α) :
    updf f i v i = v := by
  simp [updf]

/-! ## C10: `UltraOrder` id/side packing -/

/-- C10: `UltraOrder` packs id and side as `(id << 1) | side-bit`: for
`side ∈ {'B','S'}` and `id < 2^63`, `get_id`/`get_side` recover exactly `id`
and `side` after `set_id_side`; the most significant bit of larger ids is
discarded, so two ids differing by `2^63` produce identical stored nodes. -/
theorem C10_id_side_packing :
    (∀ (o : UltraOrder) (id : Nat) (side : Char), id < 2 ^ 63 →
      side = 'B' ∨ side = 'S' →
      (o.set_id_side id side).get_id = id ∧
      (o.set_id_side id side).get_side = side) ∧
    (∀ (o : UltraOrder) (id : Nat) (side : Char),
      o.set_id_side (id + 2 ^ 63) side = o.set_id_side id side) := by
  constructor
  · intro o id side hid hside
    have h2 : id * 2 % 2 ^ 64 = id * 2 := Nat.mod_eq_of_lt (by omega)
    rcases hside with h | h <;> subst h <;>
      constructor <;>
        simp [UltraOrder.set_id_side, UltraOrder.get_id, UltraOrder.get_side, h2] <;>
      omega
  · intro o id side
    have h : (id + 2 ^ 63) * 2 % 2 ^ 64 = id * 2 % 2 ^ 64 := by omega
    unfold UltraOrder.set_id_side
    rw [h]

/-- Witness for C10 at `id = 5`, `side = 'B'`. -/
theorem C10_id_side_packing_witness :
    (({} : UltraOrder).set_id_side 5 'B').get_id = 5 ∧
    (({} : UltraOrder).set_id_side 5 'B').get_side = 'B' :=
  C10_id_side_packing.1 {} 5 'B' (by decide) (Or.inl rfl)

/-! ## C2: executing an order whose quantity is already zero -/

/-- C2 counterexample: in `bZero`, order 1 rests (indexed) with quantity 0,
yet `executeOrder(1, 50)` changes the book — the bid level at index 10000
(price 50000) is modified (its `order_count` wraps from 0 to 65535). -/
theorem C2_counterexample :
    ultra_find bZero.entries 1 = some 0 ∧
    (bZero.pool 0).quantity = 0 ∧
    (ultra_executeOrder bZero 1 50).bid_levels 10000 ≠ bZero.bid_levels 10000 ∧
    ((ultra_executeOrder bZero 1 50).bid_levels 10000).order_count = 65535 := by
  decide

/-- C2 (amended): executing a resting order whose quantity is already 0
leaves the pool, the hash index, `total_quantity` and the level list
unchanged, but decrements the level's `order_count` by one modulo `2^16` —
the zero-out branch fires again on every such call. -/
theorem C2_exec_zero_decrements_count (b : UltraBook) (orderId q i : Nat)
    (hf : ultra_find b.entries orderId = some i)
    (hq : (b.pool i).quantity = 0)
    (htq : (b.levels ((b.pool i).get_side = 'B')
      (ultra_price_to_index (b.pool i).price)).total_quantity < 2 ^ 32) :
    ultra_executeOrder b orderId q =
      b.setLevel ((b.pool i).get_side = 'B')
        (ultra_price_to_index (b.pool i).price)
        { b.levels ((b.pool i).get_side = 'B')
            (ultra_price_to_index (b.pool i).price) with
          order_count := sub16 (b.levels ((b.pool i).get_side = 'B')
            (ultra_price_to_index (b.pool i).price)).order_count 1 } := by
  unfold ultra_executeOrder
  rw [hf]
  have hmin : min (q % 2 ^ 32) (b.pool i).quantity = 0 := by
    simp [hq]
  have hsub : sub32 (b.levels ((b.pool i).get_side = 'B')
      (ultra_price_to_index (b.pool i).price)).total_quantity 0 =
      (b.levels ((b.pool i).get_side = 'B')
        (ultra_price_to_index (b.pool i).price)).total_quantity := by
    unfold sub32
    omega
  simp only [hmin, hq, hsub, Nat.sub_zero, Nat.zero_sub]
  have hpool : updf b.pool i { b.pool i with quantity := 0 } = b.pool := by
    have : ({ b.pool i with quantity := 0 } : UltraOrder) = b.pool i := by
      cases hP : b.pool i with
      | mk a qq p n => simp [hP] at hq ⊢; exact hq.symm
    rw [this, updf_self]
  simp [hpool, hsub]

/-- Witness for C2 at the concrete state `bZero`. -/
theorem C2_exec_zero_decrements_count_witness :
    ultra_find bZero.entries 1 = some 0 ∧
    (bZero.pool 0).quantity = 0 ∧
    ultra_executeOrder bZero 1 50 =
      bZero.setLevel ((bZero.pool 0).get_side = 'B')
        (ultra_price_to_index (bZero.pool 0).price)
        { bZero.levels ((bZero.pool 0).get_side = 'B')
            (ultra_price_to_index (bZero.pool 0).price) with
          order_count := sub16 (bZero.levels ((bZero.pool 0).get_side = 'B')
            (ultra_price_to_index (bZero.pool 0).price)).order_count 1 } :=
  ⟨by decide, by decide,
    C2_exec_zero_decrements_count bZero 1 50 0 (by decide) (by decide) (by decide)⟩

/-! ## C6: TTL pruning of the gap buffer -/

/-- C6 counterexample: at the start of the call at time 60, the entry for
tracking number 100 (buffered at time 0) has age 60 > TTL 50, yet it survives
the prune — the loop stopped at the fresh lowest-key entry 50 — and nothing
was counted in `gap_dropped_ttl`. -/
theorem C6_counterexample :
    aGap2.gap = [⟨50, 40⟩, ⟨100, 0⟩] ∧
    aGap3.ttl < 60 - 0 ∧
    gapFind 100 aGap3.gap = some ⟨100, 0⟩ ∧
    aGap3.metrics.gap_dropped_ttl = 0 := by
  decide

/-- C6 (amended): `prune_expired` removes exactly the maximal *prefix* of
expired entries in ascending tracking-number order, counting each in
`gap_dropped_ttl`; it stops at the first non-expired entry, so an expired
entry whose key follows a non-expired one survives. -/
theorem C6_prune_drops_expired_prefix (now ttl : Nat) (g : List GapItem)
    (m : ArbiterMetrics) :
    (prune_expired now ttl g m).1 =
      g.dropWhile (fun e => decide (ttl < now - e.ts)) ∧
    (prune_expired now ttl g m).2 =
      { m with gap_dropped_ttl := m.gap_dropped_ttl +
          (g.takeWhile (fun e => decide (ttl < now - e.ts))).length } := by
  induction g generalizing m with
  | nil => simp [prune_expired]
  | cons e rest ih =>
    by_cases h : ttl < now - e.ts
    · have hd := (ih { m with gap_dropped_ttl := m.gap_dropped_ttl + 1 }).1
      have hm := (ih { m with gap_dropped_ttl := m.gap_dropped_ttl + 1 }).2
      constructor
      · simpa [prune_expired, h, List.dropWhile_cons] using hd
      · rw [show (prune_expired now ttl (e :: rest) m).2 =
            (prune_expired now ttl rest
              { m with gap_dropped_ttl := m.gap_dropped_ttl + 1 }).2 by
            simp [prune_expired, h]]
        rw [hm]
        simp [List.takeWhile_cons, h]
        omega
    · constructor
      · simp [prune_expired, h, List.dropWhile_cons]
      · simp [prune_expired, h, List.takeWhile_cons]

/-! ## C7: pool exhaustion -/

/-- C7 counterexample: with the global pool exhausted
(`g_order_pool_index = 1 000 000`), `OptimizedOrderBook::addOrder` is *not*
dropped: `acquire_order` wraps to slot 0, the add succeeds, the id is
indexed, and the level aggregate changes. -/
theorem C7_counterexample :
    bPoolFull.pool_index = 1000000 ∧
    acquire_order 1000000 = (0, 1) ∧
    (optAddOrder bPoolFull 5 'B' 100 50000).order_hash = [(5, 0)] ∧
    (optAddOrder bPoolFull 5 'B' 100 50000).pool_index = 1 ∧
    ((optAddOrder bPoolFull 5 'B' 100 50000).bid_levels 10000).quantity = 100 := by
  decide

/-- C7 (amended): for the `UltraOrderBook` pool (`ultra_fast_acquire`),
exhaustion (`stack_top ≥ capacity`, default capacity 1 000 000) silently
drops the add, leaving the whole book — levels, pool, hash index —
unchanged; and no operation ever pushes `stack_top` past `capacity`, so at
most `capacity` orders are ever allocated (bounding resting orders).  The
`OptimizedOrderBook`'s global `acquire_order`, by contrast, recycles slot 0
(see the counterexample). -/
theorem C7_ultra_pool_exhaustion :
    (∀ (b : UltraBook) (id : Nat) (side : Char) (q p : Nat),
      b.capacity ≤ b.stack_top → ultra_addOrder b id side q p = b) ∧
    (∀ (b : UltraBook) (id : Nat) (side : Char) (q p : Nat),
      b.stack_top ≤ b.capacity →
      (ultra_addOrder b id side q p).stack_top ≤ (ultra_addOrder b id side q p).capacity) ∧
    (∀ (b : UltraBook) (id q : Nat),
      (ultra_executeOrder b id q).stack_top = b.stack_top ∧
      (ultra_executeOrder b id q).capacity = b.capacity) ∧
    (∀ (b : UltraBook) (id : Nat),
      (ultra_deleteOrder b id).stack_top = b.stack_top ∧
      (ultra_deleteOrder b id).capacity = b.capacity) ∧
    (∀ (b : UltraBook) (oldId newId q p : Nat),
      b.stack_top ≤ b.capacity →
      (ultra_replaceOrder b oldId newId q p).stack_top ≤
        (ultra_replaceOrder b oldId newId q p).capacity) := by
  have hadd : ∀ (b : UltraBook) (id : Nat) (side : Char) (q p : Nat),
      b.stack_top ≤ b.capacity →
      (ultra_addOrder b id side q p).stack_top ≤ (ultra_addOrder b id side q p).capacity := by
    intro b id side q p hle
    unfold ultra_addOrder
    split
    · exact hle
    · split
      · exact hle
      · rename_i h1 h2
        simp [UltraBook.setLevel]
        split <;> simp <;> omega
  refine ⟨?_, hadd, ?_, ?_, ?_⟩
  · intro b id side q p hcap
    unfold ultra_addOrder
    split
    · rfl
    · rfl
  · intro b id q
    unfold ultra_executeOrder
    cases h : ultra_find b.entries id with
    | none => exact ⟨rfl, rfl⟩
    | some i =>
      simp only [UltraBook.setLevel]
      split <;> exact ⟨rfl, rfl⟩
  · intro b id
    unfold ultra_deleteOrder
    cases h : ultra_find b.entries id with
    | none => exact ⟨rfl, rfl⟩
    | some i =>
      simp only [UltraBook.setLevel]
      split <;> exact ⟨rfl, rfl⟩
  · intro b oldId newId q p hle
    unfold ultra_replaceOrder
    cases h : ultra_find b.entries oldId with
    | none => exact hle
    | some i =>
      apply hadd
      simp only [UltraBook.setLevel]
      split <;> exact hle

/-- Witness for C7 at the exhausted ultra book `bPoolFullU`. -/
theorem C7_ultra_pool_exhaustion_witness :
    bPoolFullU.capacity ≤ bPoolFullU.stack_top ∧
    ultra_addOrder bPoolFullU 5 'B' 100 50000 = bPoolFullU :=
  ⟨by decide, C7_ultra_pool_exhaustion.1 bPoolFullU 5 'B' 100 50000 (by decide)⟩

/-! ## C3: replace = delete + add -/

/-- On the Ultra book, `ultra_replaceOrder` inlines exactly the body of
`ultra_deleteOrder` before calling `ultra_addOrder`, so the two composites
agree on the nose once the old id resolves to pool slot `i`. -/
theorem ultra_replace_is_delete_then_add (b : UltraBook)
    (oldId newId newQty newPrice i : Nat)
    (hf : ultra_find b.entries oldId = some i) :
    ultra_replaceOrder b oldId newId newQty newPrice =
      ultra_addOrder (ultra_deleteOrder b oldId) newId (b.pool i).get_side
        newQty newPrice := by
  unfold ultra_replaceOrder ultra_deleteOrder
  rw [hf]

/-- C3 counterexample: on the `OptimizedOrderBook` with bids `[2, 1]` resting
at price 50000, the same-price `replace(1, 11, 15, 50000)` leaves the level
list as `[2, 11]` (node updated in place), while `delete(1); add(11, …)`
yields `[11, 2]` (fresh node pushed to the front) — the states differ in the
order of entries of that price level's list. -/
theorem C3_counterexample :
    ((optChain bTwo.pool ((bTwo.bid_levels 10000).first_order) 5).map
      (fun i => (bTwo.pool i).id)) = [2, 1] ∧
    ((optChain bTwoRepl.pool ((bTwoRepl.bid_levels 10000).first_order) 5).map
      (fun i => (bTwoRepl.pool i).id)) = [2, 11] ∧
    ((optChain bTwoDelAdd.pool ((bTwoDelAdd.bid_levels 10000).first_order) 5).map
      (fun i => (bTwoDelAdd.pool i).id)) = [11, 2] ∧
    (bTwoRepl.bid_levels 10000).first_order ≠
      (bTwoDelAdd.bid_levels 10000).first_order := by
  decide

/-- C3 (amended): on the `UltraOrderBook`, for a resting order `id` with side
`s`, `replace(id, id', q', p')` produces a state identical — including the
order of entries in every price level's list — to `delete(id)` followed by
`add(id', s, q', p')`.  (On the `OptimizedOrderBook` the law fails for
same-price replaces, which keep the node's list position; see the
counterexample.) -/
theorem C3_ultra_replace_eq_delete_add (b : UltraBook)
    (oldId newId newQty newPrice i : Nat)
    (hf : ultra_find b.entries oldId = some i) :
    ultra_replaceOrder b oldId newId newQty newPrice =
      ultra_addOrder (ultra_deleteOrder b oldId) newId (b.pool i).get_side
        newQty newPrice :=
  ultra_replace_is_delete_then_add b oldId newId newQty newPrice i hf

/-- Witness for C3 on the one-order book `bAdd1`. -/
theorem C3_ultra_replace_eq_delete_add_witness :
    ultra_find bAdd1.entries 1 = some 0 ∧
    ultra_replaceOrder bAdd1 1 2 50 50010 =
      ultra_addOrder (ultra_deleteOrder bAdd1 1) 2 (bAdd1.pool 0).get_side
        50 50010 :=
  ⟨by decide, C3_ultra_replace_eq_delete_add bAdd1 1 2 50 50010 0 (by decide)⟩

/-! ## C4: best-bid / best-ask queries -/

/-- The descending ultra scan returns the highest index below `n` with
positive quantity (as a price), else 0. -/
theorem bestScanDown_spec (lv : Nat → UltraPriceLevel) (n : Nat) :
    (bestScanDown lv n = 0 ∧ ∀ i, i < n → (lv i).total_quantity = 0) ∨
    (∃ i, i < n ∧ 0 < (lv i).total_quantity ∧
      bestScanDown lv n = ULTRA_MIN_PRICE + i ∧
      ∀ j, j < n → i < j → (lv j).total_quantity = 0) := by
  induction n with
  | zero => exact Or.inl ⟨rfl, fun i h => absurd h (Nat.not_lt_zero i)⟩
  | succ n ih =>
    by_cases h : 0 < (lv n).total_quantity
    · right
      exact ⟨n, Nat.lt_succ_self n, h, by simp [bestScanDown, h],
        fun j hj hlt => by omega⟩
    · have hz : (lv n).total_quantity = 0 := by omega
      rcases ih with ⟨h0, hall⟩ | ⟨i, hi, hpos, hval, habove⟩
      · left
        refine ⟨by simp [bestScanDown, h, h0], fun i hi => ?_⟩
        rcases Nat.lt_succ_iff_lt_or_eq.mp hi with h' | h'
        · exact hall i h'
        · subst h'; exact hz
      · right
        refine ⟨i, Nat.lt_succ_of_lt hi, hpos,
          by simp [bestScanDown, h, hval], fun j hj hlt => ?_⟩
        rcases Nat.lt_succ_iff_lt_or_eq.mp hj with h' | h'
        · exact habove j h' hlt
        · subst h'; exact hz

/-- The ascending ultra scan returns the lowest hit in `[i, i+rem)`. -/
theorem bestScanUp_spec (lv : Nat → UltraPriceLevel) :
    ∀ rem i : Nat,
    (bestScanUp lv i rem = 0 ∧
      ∀ j, i ≤ j → j < i + rem → (lv j).total_quantity = 0) ∨
    (∃ j, i ≤ j ∧ j < i + rem ∧ 0 < (lv j).total_quantity ∧
      bestScanUp lv i rem = ULTRA_MIN_PRICE + j ∧
      ∀ k, i ≤ k → k < j → (lv k).total_quantity = 0) := by
  intro rem
  induction rem with
  | zero => exact fun i => Or.inl ⟨rfl, fun j h1 h2 => by omega⟩
  | succ rem ih =>
    intro i
    by_cases h : 0 < (lv i).total_quantity
    · right
      exact ⟨i, Nat.le_refl i, by omega, h, by simp [bestScanUp, h],
        fun k h1 h2 => by omega⟩
    · have hz : (lv i).total_quantity = 0 := by omega
      rcases ih (i + 1) with ⟨h0, hall⟩ | ⟨j, hj1, hj2, hpos, hval, hbelow⟩
      · left
        refine ⟨by simp [bestScanUp, h, h0], fun j h1 h2 => ?_⟩
        rcases Nat.eq_or_lt_of_le h1 with h' | h'
        · subst h'; exact hz
        · exact hall j h' (by omega)
      · right
        refine ⟨j, by omega, by omega, hpos, by simp [bestScanUp, h, hval],
          fun k h1 h2 => ?_⟩
        rcases Nat.eq_or_lt_of_le h1 with h' | h'
        · subst h'; exact hz
        · exact hbelow k h' h2

/-- The descending optimized bid scan covers indices `n … 1` only. -/
theorem optScanDown_spec (lv : Nat → FastPriceLevel) (n : Nat) :
    (optScanDown lv n = 0 ∧ ∀ i, 1 ≤ i → i ≤ n → ¬ optLevelHit lv i) ∨
    (∃ i, 1 ≤ i ∧ i ≤ n ∧ optLevelHit lv i ∧
      optScanDown lv n = i + MIN_PRICE ∧
      ∀ j, i < j → j ≤ n → ¬ optLevelHit lv j) := by
  induction n with
  | zero => exact Or.inl ⟨rfl, fun i h1 h2 => by omega⟩
  | succ n ih =>
    by_cases h : optLevelHit lv (n + 1)
    · right
      refine ⟨n + 1, by omega, Nat.le_refl _, h, ?_, fun j hj1 hj2 => by omega⟩
      have := h
      unfold optLevelHit at this
      simp [optScanDown, this.1, this.2]
    · have hval : optScanDown lv (n + 1) = optScanDown lv n := by
        unfold optLevelHit at h
        by_cases h1 : (lv (n + 1)).active ≠ 0
        · have h2 : ¬ 0 < (lv (n + 1)).quantity := fun hq => h ⟨h1, hq⟩
          simp [optScanDown, h1, h2]
        · simp [optScanDown, h1]
      rcases ih with ⟨h0, hall⟩ | ⟨i, hi1, hi2, hhit, hv, habove⟩
      · left
        refine ⟨hval.trans h0, fun i h1 h2 => ?_⟩
        rcases Nat.lt_succ_iff_lt_or_eq.mp (Nat.lt_succ_of_le h2) with h' | h'
        · exact hall i h1 (by omega)
        · subst h'; exact h
      · right
        refine ⟨i, hi1, Nat.le_succ_of_le hi2, hhit, hval.trans hv,
          fun j hj1 hj2 => ?_⟩
        rcases Nat.lt_succ_iff_lt_or_eq.mp (Nat.lt_succ_of_le hj2) with h' | h'
        · exact habove j hj1 (by omega)
        · subst h'; exact h

/-- The ascending optimized ask scan returns the lowest hit in `[i, i+rem)`. -/
theorem optScanUp_spec (lv : Nat → FastPriceLevel) :
    ∀ rem i : Nat,
    (optScanUp lv i rem = 0 ∧ ∀ j, i ≤ j → j < i + rem → ¬ optLevelHit lv j) ∨
    (∃ j, i ≤ j ∧ j < i + rem ∧ optLevelHit lv j ∧
      optScanUp lv i rem = j + MIN_PRICE ∧
      ∀ k, i ≤ k → k < j → ¬ optLevelHit lv k) := by
  intro rem
  induction rem with
  | zero => exact fun i => Or.inl ⟨rfl, fun j h1 h2 => by omega⟩
  | succ rem ih =>
    intro i
    by_cases h : optLevelHit lv i
    · right
      refine ⟨i, Nat.le_refl i, by omega, h, ?_, fun k h1 h2 => by omega⟩
      have := h
      unfold optLevelHit at this
      simp [optScanUp, this.1, this.2]
    · have hval : optScanUp lv i (rem + 1) = optScanUp lv (i + 1) rem := by
        unfold optLevelHit at h
        by_cases h1 : (lv i).active ≠ 0
        · have h2 : ¬ 0 < (lv i).quantity := fun hq => h ⟨h1, hq⟩
          simp [optScanUp, h1, h2]
        · simp [optScanUp, h1]
      rcases ih (i + 1) with ⟨h0, hall⟩ | ⟨j, hj1, hj2, hhit, hv, hbelow⟩
      · left
        refine ⟨hval.trans h0, fun j h1 h2 => ?_⟩
        rcases Nat.eq_or_lt_of_le h1 with h' | h'
        · subst h'; exact h
        · exact hall j h' (by omega)
      · right
        refine ⟨j, by omega, by omega, hhit, hval.trans hv, fun k h1 h2 => ?_⟩
        rcases Nat.eq_or_lt_of_le h1 with h' | h'
        · subst h'; exact h
        · exact hbelow k h' h2

theorem ultra_find_go_empty (oid h : Nat) : ∀ rem i : Nat,
    ultra_find_go (fun _ => ({} : HashEntry)) oid h i rem = none := by
  intro rem
  induction rem with
  | zero => intro i; rfl
  | succ rem ih =>
    intro i
    unfold ultra_find_go
    simp only []
    split
    · rfl
    · split
      · rfl
      · exact ih (i + 1)

theorem ultra_find_mkEmpty (cap id : Nat) :
    ultra_find (UltraBook.mkEmpty cap).entries id = none := by
  unfold ultra_find UltraBook.mkEmpty
  exact ultra_find_go_empty _ _ 64 0

/-- Adding to a fresh ultra book touches only the target price index. -/
theorem ultra_add_mkEmpty_levels (cap id q p : Nat) (side : Char) (j : Nat)
    (hcap : 0 < cap) (hj : j ≠ ultra_price_to_index (p % 2 ^ 32)) :
    (ultra_addOrder (UltraBook.mkEmpty cap) id side q p).bid_levels j = {} ∧
    (ultra_addOrder (UltraBook.mkEmpty cap) id side q p).ask_levels j = {} := by
  unfold ultra_addOrder
  rw [ultra_find_mkEmpty]
  have hcz : ¬ cap = 0 := by omega
  have hc : ¬ ((UltraBook.mkEmpty cap).capacity ≤ (UltraBook.mkEmpty cap).stack_top) := by
    simp [UltraBook.mkEmpty]; omega
  by_cases hs : side = 'B' <;>
    simp only [Option.isSome_none, Bool.false_eq_true, if_false, hc, UltraBook.setLevel,
      UltraBook.levels, UltraBook.mkEmpty, hs, if_true, hcz] <;>
    simp [updf, hj, hs, hcz] <;> exact hj

/-- Adding to a fresh optimized book touches only the target price index. -/
theorem optAdd_mkEmpty_levels (id q p : Nat) (side : Char) (j : Nat)
    (hj : j ≠ price_to_index (p % 2 ^ 32)) :
    (optAddOrder OptBook.mkEmpty id side q p).bid_levels j = {} ∧
    (optAddOrder OptBook.mkEmpty id side q p).ask_levels j = {} := by
  unfold optAddOrder
  by_cases hs : side = 'B' <;>
    simp only [OptBook.mkEmpty, hashFind, List.find?_nil, Option.map_none, Option.isSome_none,
      Bool.false_eq_true, if_false, acquire_order, add_to_level_fast, OptBook.setLevel,
      OptBook.levels, hs] <;>
    simp [updf, hj, hs] <;> exact hj

theorem bestScanDown_eq_hit (lv : Nat → UltraPriceLevel) (n i : Nat)
    (hi : i < n) (hpos : 0 < (lv i).total_quantity)
    (habove : ∀ j, j < n → i < j → (lv j).total_quantity = 0) :
    bestScanDown lv n = ULTRA_MIN_PRICE + i := by
  rcases bestScanDown_spec lv n with ⟨_, hall⟩ | ⟨i', hi', hpos', hval, habove'⟩
  · exact absurd (hall i hi) (by omega)
  · have : i = i' := by
      by_contra hne
      rcases Nat.lt_or_ge i i' with hlt | hge
      · exact absurd (habove i' hi' hlt) (by omega)
      · exact absurd (habove' i hi (by omega)) (by omega)
    rw [this]
    exact hval

theorem optScanDown_eq_zero (lv : Nat → FastPriceLevel) (n : Nat)
    (hall : ∀ i, 1 ≤ i → i ≤ n → ¬ optLevelHit lv i) :
    optScanDown lv n = 0 := by
  rcases optScanDown_spec lv n with ⟨h0, _⟩ | ⟨i, h1, h2, hhit, _, _⟩
  · exact h0
  · exact absurd hhit (hall i h1 h2)

/-- `ultra_getBestBid`, expressed over prices: the highest price in
`[ULTRA_MIN_PRICE, ULTRA_MAX_PRICE]` whose bid level has positive
`total_quantity`, or 0 when every level in the range is empty. -/
theorem ultra_getBestBid_spec (b : UltraBook) :
    (ultra_getBestBid b = 0 ∧ ∀ p, ULTRA_MIN_PRICE ≤ p → p ≤ ULTRA_MAX_PRICE →
      (b.bid_levels (p - ULTRA_MIN_PRICE)).total_quantity = 0) ∨
    (∃ p, ULTRA_MIN_PRICE ≤ p ∧ p ≤ ULTRA_MAX_PRICE ∧
      0 < (b.bid_levels (p - ULTRA_MIN_PRICE)).total_quantity ∧
      ultra_getBestBid b = p ∧
      ∀ q, p < q → q ≤ ULTRA_MAX_PRICE →
        (b.bid_levels (q - ULTRA_MIN_PRICE)).total_quantity = 0) := by
  have hL : ULTRA_MIN_PRICE = 40000 := rfl
  have hU : ULTRA_MAX_PRICE = 60000 := rfl
  have hN : ULTRA_PRICE_LEVELS = 20001 := rfl
  rcases bestScanDown_spec b.bid_levels ULTRA_PRICE_LEVELS with
    ⟨h0, hall⟩ | ⟨i, hi, hpos, hval, habove⟩
  · exact Or.inl ⟨h0, fun p hp1 hp2 => hall (p - ULTRA_MIN_PRICE) (by omega)⟩
  · right
    refine ⟨ULTRA_MIN_PRICE + i, by omega, by omega, ?_, hval, ?_⟩
    · have h : ULTRA_MIN_PRICE + i - ULTRA_MIN_PRICE = i := by omega
      rw [h]; exact hpos
    · intro q h1 h2
      exact habove (q - ULTRA_MIN_PRICE) (by omega) (by omega)

/-- `ultra_getBestAsk`, expressed over prices: the lowest positive ask. -/
theorem ultra_getBestAsk_spec (b : UltraBook) :
    (ultra_getBestAsk b = 0 ∧ ∀ p, ULTRA_MIN_PRICE ≤ p → p ≤ ULTRA_MAX_PRICE →
      (b.ask_levels (p - ULTRA_MIN_PRICE)).total_quantity = 0) ∨
    (∃ p, ULTRA_MIN_PRICE ≤ p ∧ p ≤ ULTRA_MAX_PRICE ∧
      0 < (b.ask_levels (p - ULTRA_MIN_PRICE)).total_quantity ∧
      ultra_getBestAsk b = p ∧
      ∀ q, ULTRA_MIN_PRICE ≤ q → q < p →
        (b.ask_levels (q - ULTRA_MIN_PRICE)).total_quantity = 0) := by
  have hL : ULTRA_MIN_PRICE = 40000 := rfl
  have hU : ULTRA_MAX_PRICE = 60000 := rfl
  have hN : ULTRA_PRICE_LEVELS = 20001 := rfl
  rcases bestScanUp_spec b.ask_levels ULTRA_PRICE_LEVELS 0 with
    ⟨h0, hall⟩ | ⟨j, _, hj2, hpos, hval, hbelow⟩
  · exact Or.inl ⟨h0, fun p hp1 hp2 => hall (p - ULTRA_MIN_PRICE) (by omega) (by omega)⟩
  · right
    refine ⟨ULTRA_MIN_PRICE + j, by omega, by omega, ?_, hval, ?_⟩
    · have h : ULTRA_MIN_PRICE + j - ULTRA_MIN_PRICE = j := by omega
      rw [h]; exact hpos
    · intro q h1 h2
      exact hbelow (q - ULTRA_MIN_PRICE) (by omega) (by omega)

/-- `OptimizedOrderBook::getBestAsk`, over prices: the lowest active ask
level with positive quantity in `[MIN_PRICE, MAX_PRICE]`. -/
theorem optGetBestAsk_spec (b : OptBook) :
    (optGetBestAsk b = 0 ∧ ∀ p, MIN_PRICE ≤ p → p ≤ MAX_PRICE →
      ¬ optLevelHit b.ask_levels (p - MIN_PRICE)) ∨
    (∃ p, MIN_PRICE ≤ p ∧ p ≤ MAX_PRICE ∧ optLevelHit b.ask_levels (p - MIN_PRICE) ∧
      optGetBestAsk b = p ∧
      ∀ q, MIN_PRICE ≤ q → q < p → ¬ optLevelHit b.ask_levels (q - MIN_PRICE)) := by
  have hL : MIN_PRICE = 40000 := rfl
  have hU : MAX_PRICE = 60000 := rfl
  have hN : PRICE_LEVELS = 20001 := rfl
  rcases optScanUp_spec b.ask_levels PRICE_LEVELS 0 with
    ⟨h0, hall⟩ | ⟨j, _, hj2, hhit, hval, hbelow⟩
  · exact Or.inl ⟨h0, fun p hp1 hp2 => hall (p - MIN_PRICE) (by omega) (by omega)⟩
  · right
    refine ⟨j + MIN_PRICE, by omega, by omega, ?_, hval, ?_⟩
    · have h : j + MIN_PRICE - MIN_PRICE = j := by omega
      rw [h]; exact hhit
    · intro q h1 h2
      exact hbelow (q - MIN_PRICE) (by omega) (by omega)

/-- `OptimizedOrderBook::getBestBid`, over prices: the loop starts at
`PRICE_LEVELS - 1` and stops at index 1, so only prices in
`[MIN_PRICE + 1, MAX_PRICE]` are ever reported — a bid resting exactly at
`MIN_PRICE` (index 0) is invisible. -/
theorem optGetBestBid_spec (b : OptBook) :
    (optGetBestBid b = 0 ∧ ∀ p, MIN_PRICE + 1 ≤ p → p ≤ MAX_PRICE →
      ¬ optLevelHit b.bid_levels (p - MIN_PRICE)) ∨
    (∃ p, MIN_PRICE + 1 ≤ p ∧ p ≤ MAX_PRICE ∧ optLevelHit b.bid_levels (p - MIN_PRICE) ∧
      optGetBestBid b = p ∧
      ∀ q, p < q → q ≤ MAX_PRICE → ¬ optLevelHit b.bid_levels (q - MIN_PRICE)) := by
  have hL : MIN_PRICE = 40000 := rfl
  have hU : MAX_PRICE = 60000 := rfl
  have hN : PRICE_LEVELS = 20001 := rfl
  rcases optScanDown_spec b.bid_levels (PRICE_LEVELS - 1) with
    ⟨h0, hall⟩ | ⟨i, hi1, hi2, hhit, hval, habove⟩
  · exact Or.inl ⟨h0, fun p hp1 hp2 => hall (p - MIN_PRICE) (by omega) (by omega)⟩
  · right
    refine ⟨i + MIN_PRICE, by omega, by omega, ?_, hval, ?_⟩
    · have h : i + MIN_PRICE - MIN_PRICE = i := by omega
      rw [h]; exact hhit
    · intro q h1 h2
      exact habove (q - MIN_PRICE) (by omega) (by omega)

/-- The single bid at `ULTRA_MIN_PRICE` is found by the ultra scan. -/
theorem bMinBidU_bestBid : ultra_getBestBid bMinBidU = ULTRA_MIN_PRICE := by
  unfold ultra_getBestBid
  have hidx : ultra_price_to_index (40000 % 2 ^ 32) = 0 := by decide
  have h := bestScanDown_eq_hit bMinBidU.bid_levels ULTRA_PRICE_LEVELS 0
    (by decide) (by decide)
    (fun j hj hpos => by
      have hne : j ≠ ultra_price_to_index (40000 % 2 ^ 32) := by omega
      unfold bMinBidU
      exact congrArg UltraPriceLevel.total_quantity
        (ultra_add_mkEmpty_levels 1000000 1 100 40000 'B' j (by decide) hne).1)
  simpa using h

/-- The single bid at `MIN_PRICE` is invisible to the optimized bid scan. -/
theorem bMinBid_bestBid : optGetBestBid bMinBid = 0 := by
  unfold optGetBestBid
  have hidx : price_to_index (40000 % 2 ^ 32) = 0 := by decide
  refine optScanDown_eq_zero bMinBid.bid_levels (PRICE_LEVELS - 1)
    (fun i h1 h2 => ?_)
  have hne : i ≠ price_to_index (40000 % 2 ^ 32) := by omega
  have hlv : bMinBid.bid_levels i = {} := by
    unfold bMinBid
    exact (optAdd_mkEmpty_levels 1 100 40000 'B' i hne).1
  unfold optLevelHit
  rw [hlv]
  simp

/-- C4 counterexample: in `bMinBid` a bid with positive quantity rests at
exactly `MIN_PRICE` (price 40000, index 0, active level), yet
`OptimizedOrderBook::getBestBid` returns 0, not `MIN_PRICE` — its scan
`for (i = PRICE_LEVELS-1; i > 0; --i)` never checks index 0. -/
theorem C4_counterexample :
    MIN_PRICE = 40000 ∧
    (bMinBid.bid_levels (40000 - MIN_PRICE)).active ≠ 0 ∧
    0 < (bMinBid.bid_levels (40000 - MIN_PRICE)).quantity ∧
    optGetBestBid bMinBid = 0 :=
  ⟨rfl, by decide, by decide, bMinBid_bestBid⟩

/-- C4 (amended): `UltraOrderBook`'s `ultra_getBestBid`/`ultra_getBestAsk`
return the highest (resp. lowest) price in `[MIN_PRICE, MAX_PRICE]` with
positive quantity, 0 when none — including a bid exactly at `MIN_PRICE` —
and `OptimizedOrderBook::getBestAsk` likewise; but
`OptimizedOrderBook::getBestBid` only reports prices in
`[MIN_PRICE + 1, MAX_PRICE]`: a single bid at exactly `MIN_PRICE` yields 0. -/
theorem C4_best_price_queries :
    (∀ b : UltraBook,
      (ultra_getBestBid b = 0 ∧ ∀ p, ULTRA_MIN_PRICE ≤ p → p ≤ ULTRA_MAX_PRICE →
        (b.bid_levels (p - ULTRA_MIN_PRICE)).total_quantity = 0) ∨
      (∃ p, ULTRA_MIN_PRICE ≤ p ∧ p ≤ ULTRA_MAX_PRICE ∧
        0 < (b.bid_levels (p - ULTRA_MIN_PRICE)).total_quantity ∧
        ultra_getBestBid b = p ∧
        ∀ q, p < q → q ≤ ULTRA_MAX_PRICE →
          (b.bid_levels (q - ULTRA_MIN_PRICE)).total_quantity = 0)) ∧
    (∀ b : UltraBook,
      (ultra_getBestAsk b = 0 ∧ ∀ p, ULTRA_MIN_PRICE ≤ p → p ≤ ULTRA_MAX_PRICE →
        (b.ask_levels (p - ULTRA_MIN_PRICE)).total_quantity = 0) ∨
      (∃ p, ULTRA_MIN_PRICE ≤ p ∧ p ≤ ULTRA_MAX_PRICE ∧
        0 < (b.ask_levels (p - ULTRA_MIN_PRICE)).total_quantity ∧
        ultra_getBestAsk b = p ∧
        ∀ q, ULTRA_MIN_PRICE ≤ q → q < p →
          (b.ask_levels (q - ULTRA_MIN_PRICE)).total_quantity = 0)) ∧
    (∀ b : OptBook,
      (optGetBestAsk b = 0 ∧ ∀ p, MIN_PRICE ≤ p → p ≤ MAX_PRICE →
        ¬ optLevelHit b.ask_levels (p - MIN_PRICE)) ∨
      (∃ p, MIN_PRICE ≤ p ∧ p ≤ MAX_PRICE ∧ optLevelHit b.ask_levels (p - MIN_PRICE) ∧
        optGetBestAsk b = p ∧
        ∀ q, MIN_PRICE ≤ q → q < p → ¬ optLevelHit b.ask_levels (q - MIN_PRICE))) ∧
    (∀ b : OptBook,
      (optGetBestBid b = 0 ∧ ∀ p, MIN_PRICE + 1 ≤ p → p ≤ MAX_PRICE →
        ¬ optLevelHit b.bid_levels (p - MIN_PRICE)) ∨
      (∃ p, MIN_PRICE + 1 ≤ p ∧ p ≤ MAX_PRICE ∧ optLevelHit b.bid_levels (p - MIN_PRICE) ∧
        optGetBestBid b = p ∧
        ∀ q, p < q → q ≤ MAX_PRICE → ¬ optLevelHit b.bid_levels (q - MIN_PRICE))) ∧
    ultra_getBestBid bMinBidU = ULTRA_MIN_PRICE ∧
    optGetBestBid bMinBid = 0 :=
  ⟨ultra_getBestBid_spec, ultra_getBestAsk_spec, optGetBestAsk_spec,
    optGetBestBid_spec, bMinBidU_bestBid, bMinBid_bestBid⟩

/-- Witness for C4 at the two concrete single-order books. -/
theorem C4_best_price_queries_witness :
    ultra_getBestBid bMinBidU = ULTRA_MIN_PRICE ∧ optGetBestBid bMinBid = 0 :=
  ⟨C4_best_price_queries.2.2.2.2.1, C4_best_price_queries.2.2.2.2.2⟩

/-! ## C9: decoder size handling -/

theorem itch_size_cases (t : Nat) :
    itch_message_size t = 0 ∨ 12 ≤ itch_message_size t := by
  unfold itch_message_size
  split_ifs <;> simp

/-- C9: `decode_one` returns `message_size = 0` iff the leading type byte is
unknown to the size table or the table size exceeds the provided length;
otherwise it returns exactly the table size (S=12, R=39, A=36, F=40, E=31,
C=36, X=23, D=19, U=35). -/
theorem C9_decode_size (st : SymbolTable) (bytes : List Nat) :
    ((decode_one st bytes).1.message_size = 0 ↔
      itch_message_size (bytes.headD 0 % 256) = 0 ∨
      bytes.length < itch_message_size (bytes.headD 0 % 256)) ∧
    ((decode_one st bytes).1.message_size ≠ 0 →
      (decode_one st bytes).1.message_size =
        itch_message_size (bytes.headD 0 % 256)) ∧
    (itch_message_size 83 = 12 ∧ itch_message_size 82 = 39 ∧
     itch_message_size 65 = 36 ∧ itch_message_size 70 = 40 ∧
     itch_message_size 69 = 31 ∧ itch_message_size 67 = 36 ∧
     itch_message_size 88 = 23 ∧ itch_message_size 68 = 19 ∧
     itch_message_size 85 = 35) := by
  by_cases h5 : bytes.length < 5
  · have hres : (decode_one st bytes).1 = {} := by
      unfold decode_one
      rw [if_pos h5]
    refine ⟨?_, ?_, by decide⟩
    · rw [hres]
      refine ⟨fun _ => ?_, fun _ => rfl⟩
      rcases itch_size_cases (bytes.headD 0 % 256) with h | h
      · exact Or.inl h
      · exact Or.inr (by omega)
    · rw [hres]
      intro h
      exact absurd rfl h
  · by_cases hm : itch_message_size (bytes.headD 0 % 256) = 0 ∨
        bytes.length < itch_message_size (bytes.headD 0 % 256)
    · have hres : (decode_one st bytes).1 = { message_size := 0 } := by
        unfold decode_one
        rw [if_neg h5, if_pos hm]
      refine ⟨?_, ?_, by decide⟩
      · rw [hres]
        exact ⟨fun _ => hm, fun _ => rfl⟩
      · rw [hres]
        intro h
        exact absurd rfl h
    · have hres : (decode_one st bytes).1.message_size =
          itch_message_size (bytes.headD 0 % 256) := by
        unfold decode_one
        rw [if_neg h5, if_neg hm]
        split_ifs <;> rfl
      refine ⟨?_, ?_, by decide⟩
      · rw [hres]
        push_neg at hm
        exact ⟨fun h0 => absurd h0 hm.1,
          fun h => absurd (h.resolve_left hm.1) (by omega)⟩
      · intro _
        exact hres

/-- Witness for C9 on a well-formed 12-byte `'S'` message. -/
theorem C9_decode_size_witness :
    (decode_one {} (83 :: List.replicate 11 7)).1.message_size ≠ 0 ∧
    (decode_one {} (83 :: List.replicate 11 7)).1.message_size =
      itch_message_size ((83 :: List.replicate 11 7).headD 0 % 256) :=
  ⟨by decide, (C9_decode_size {} (83 :: List.replicate 11 7)).2.1 (by decide)⟩

/-! ## C8: symbol table id assignment -/

theorem trimSpaces_symOf (k : Nat) : trimSpaces (symOf k) = symOf k := by
  unfold trimSpaces symOf
  simp [List.dropWhile]

theorem symOf_inj (k k' : Nat) (hk : k < 2 ^ 24) (hk' : k' < 2 ^ 24)
    (h : symOf k = symOf k') : k = k' := by
  unfold symOf at h
  simp only [List.cons.injEq, and_true] at h
  omega

/-- Interning a list of pairwise fresh symbols hands out `next_id_`,
`next_id_ + 1`, … — each reduced modulo `2^16` by the `uint16`
post-increment. -/
theorem internAll_ids (syms : List (List Nat)) : ∀ st : SymbolTable,
    st.next_id < 2 ^ 16 →
    (∀ s ∈ syms, ∀ p ∈ st.map, p.1 ≠ trimSpaces s) →
    (syms.map trimSpaces).Nodup →
    (internAll st syms).1 =
      (List.range syms.length).map (fun k => (st.next_id + k) % 2 ^ 16) ∧
    (∀ p ∈ (internAll st syms).2.map, p ∈ st.map ∨ p.1 ∈ syms.map trimSpaces) := by
  induction syms with
  | nil =>
    intro st _ _ _
    exact ⟨rfl, fun p hp => Or.inl hp⟩
  | cons s rest ih =>
    intro st hlt hfresh hnd
    have hfind : st.map.find? (fun p => p.1 == trimSpaces s) = none := by
      rw [List.find?_eq_none]
      intro p hp
      simp only [beq_iff_eq]
      exact fun hEq => hfresh s (by simp) p hp hEq
    have hnd' : (trimSpaces s :: rest.map trimSpaces).Nodup := by simpa using hnd
    have hnotmem : trimSpaces s ∉ rest.map trimSpaces := (List.nodup_cons.mp hnd').1
    have hndt : (rest.map trimSpaces).Nodup := (List.nodup_cons.mp hnd').2
    unfold internAll
    simp only [get_or_intern, hfind]
    have hih := ih
      { map := (trimSpaces s, st.next_id) :: st.map
        storage := updf st.storage st.next_id s
        next_id := (st.next_id + 1) % 2 ^ 16 }
      (Nat.mod_lt _ (by omega))
      (by
        intro s1 hs1 p hp
        rcases List.mem_cons.mp hp with h | h
        · subst h
          intro hEq
          have hEq' : trimSpaces s = trimSpaces s1 := hEq
          refine hnotmem ?_
          rw [hEq']
          exact List.mem_map_of_mem trimSpaces hs1
        · exact hfresh s1 (List.mem_cons_of_mem s hs1) p h)
      hndt
    refine ⟨?_, ?_⟩
    · simp only [List.length_cons]
      rw [hih.1, List.range_succ_eq_map]
      simp only [List.map_cons, List.map_map]
      have hh : (st.next_id + 0) % 2 ^ 16 = st.next_id := by omega
      rw [hh]
      congr 1
      refine List.map_congr_left (fun k _ => ?_)
      simp only [Function.comp]
      omega
    · intro p hp
      rcases hih.2 p hp with h | h
      · rcases List.mem_cons.mp h with h1 | h1
        · right
          rw [h1]
          simp
        · exact Or.inl h1
      · right
        simp only [List.map_cons, List.mem_cons]
        exact Or.inr h

/-- C8 counterexample: interning 65 537 pairwise distinct symbols (the
`symOf`-encodings of `0 … 65536`) returns the *reserved* id 0 for the
65 536th distinct symbol, and recycles id 1 for the 65 537th — `next_id_`
wraps around with no process abort. -/
theorem C8_counterexample :
    ((internAll {} ((List.range 65537).map symOf)).1.get? 0 = some 1) ∧
    ((internAll {} ((List.range 65537).map symOf)).1.get? 65535 = some 0) ∧
    ((internAll {} ((List.range 65537).map symOf)).1.get? 65536 = some 1) := by
  have hids := internAll_ids ((List.range 65537).map symOf) {}
    (by decide)
    (fun s _ p hp => absurd hp (List.not_mem_nil p))
    (by
      rw [List.map_map]
      have hcongr : (List.range 65537).map (trimSpaces ∘ symOf) =
          (List.range 65537).map symOf := by
        refine List.map_congr_left (fun k _ => ?_)
        exact trimSpaces_symOf k
      rw [hcongr]
      refine List.Nodup.map_on ?_ (List.nodup_range 65537)
      intro x hx y hy hEq
      exact symOf_inj x y (by simp at hx; omega) (by simp at hy; omega) hEq)
  rw [hids.1]
  simp only [List.length_map, List.length_range]
  refine ⟨?_, ?_, ?_⟩ <;>
  · rw [List.get?_map, List.get?_range (by omega)]
    decide

/-- C8 (amended): `get_or_intern` assigns ids monotonically starting from 1
and never returns 0 *while at most 65 535 distinct symbols are interned*; a
second intern of a known symbol returns its assigned id and leaves the table
untouched (stability).  Beyond 65 535 distinct symbols there is no process
abort: the `uint16` `next_id_` wraps, the 65 536th distinct symbol receives
the reserved id 0, and ids are recycled (see the counterexample). -/
theorem C8_symbol_ids (syms : List (List Nat))
    (hnd : (syms.map trimSpaces).Nodup) (hlen : syms.length ≤ 65535) :
    (internAll {} syms).1 = (List.range syms.length).map (fun k => k + 1) ∧
    (∀ id ∈ (internAll {} syms).1, 1 ≤ id ∧ id ≤ 65535) ∧
    (∀ (st : SymbolTable) (s : List Nat) (p : List Nat × Nat),
      st.map.find? (fun q => q.1 == trimSpaces s) = some p →
      get_or_intern st s = (p.2, st)) := by
  have hids := internAll_ids syms {} (by decide)
    (fun s _ p hp => absurd hp (List.not_mem_nil p)) hnd
  have h1 : (internAll {} syms).1 =
      (List.range syms.length).map (fun k => k + 1) := by
    rw [hids.1]
    refine List.map_congr_left (fun k hk => ?_)
    have hklt : k < syms.length := List.mem_range.mp hk
    show (1 + k) % 2 ^ 16 = k + 1
    omega
  refine ⟨h1, ?_, ?_⟩
  · intro id hid
    rw [h1] at hid
    rcases List.mem_map.mp hid with ⟨k, hk, hEq⟩
    have : k < syms.length := List.mem_range.mp hk
    omega
  · intro st s p hp
    unfold get_or_intern
    simp only []
    rw [hp]

/-- Witness for C8 on two distinct one-byte symbols. -/
theorem C8_symbol_ids_witness :
    (internAll {} [[65], [66]]).1 = [1, 2] :=
  ((C8_symbol_ids [[65], [66]] (by decide) (by decide)).1).trans (by decide)

/-! ## C5: arbiter completeness — gap-buffer lemmas -/

theorem gapFind_some_mem (tn : Nat) : ∀ (g : List GapItem) (it : GapItem),
    gapFind tn g = some it → it ∈ g ∧ it.tn = tn := by
  intro g
  induction g with
  | nil => intro it h; cases h
  | cons e rest ih =>
    intro it h
    unfold gapFind at h
    by_cases he : e.tn = tn
    · rw [if_pos he] at h
      cases h
      exact ⟨List.mem_cons_self e rest, he⟩
    · rw [if_neg he] at h
      rcases ih it h with ⟨h1, h2⟩
      exact ⟨List.mem_cons_of_mem e h1, h2⟩

theorem gapFind_eq_none (tn : Nat) : ∀ g : List GapItem,
    gapFind tn g = none ↔ ∀ e ∈ g, e.tn ≠ tn := by
  intro g
  induction g with
  | nil => simp [gapFind]
  | cons e rest ih =>
    unfold gapFind
    by_cases he : e.tn = tn
    · simp [he]
    · simp [he, ih]

theorem gapErase_sublist (tn : Nat) : ∀ g : List GapItem,
    List.Sublist (gapErase tn g) g := by
  intro g
  induction g with
  | nil => exact List.Sublist.refl []
  | cons e rest ih =>
    unfold gapErase
    by_cases he : e.tn = tn
    · rw [if_pos he]
      exact List.sublist_cons_self e rest
    · rw [if_neg he]
      exact List.Sublist.cons₂ e ih

theorem gapErase_length (tn : Nat) : ∀ (g : List GapItem) (it : GapItem),
    gapFind tn g = some it → g.length = (gapErase tn g).length + 1 := by
  intro g
  induction g with
  | nil => intro it h; cases h
  | cons e rest ih =>
    intro it h
    unfold gapFind at h
    unfold gapErase
    by_cases he : e.tn = tn
    · rw [if_pos he]
      simp
    · rw [if_neg he] at h
      rw [if_neg he]
      simp [ih it h]

theorem mem_gapErase (tn : Nat) : ∀ (g : List GapItem),
    List.Pairwise (fun a b : GapItem => a.tn < b.tn) g →
    ∀ x, (x ∈ gapErase tn g ↔ x ∈ g ∧ x.tn ≠ tn) := by
  intro g
  induction g with
  | nil => intro _ x; simp [gapErase]
  | cons e rest ih =>
    intro hp x
    have hhead := (List.pairwise_cons.mp hp).1
    have htail := (List.pairwise_cons.mp hp).2
    unfold gapErase
    by_cases he : e.tn = tn
    · rw [if_pos he]
      constructor
      · intro hx
        refine ⟨List.mem_cons_of_mem e hx, ?_⟩
        have := hhead x hx
        omega
      · intro ⟨hx, hne⟩
        rcases List.mem_cons.mp hx with h1 | h1
        · subst h1; exact absurd he hne
        · exact h1
    · rw [if_neg he]
      constructor
      · intro hx
        rcases List.mem_cons.mp hx with h1 | h1
        · exact ⟨List.mem_cons.mpr (Or.inl h1), by rw [h1]; exact he⟩
        · rcases (ih htail x).mp h1 with ⟨h2, h3⟩
          exact ⟨List.mem_cons_of_mem e h2, h3⟩
      · intro ⟨hx, hne⟩
        rcases List.mem_cons.mp hx with h1 | h1
        · subst h1; exact List.mem_cons_self x _
        · exact List.mem_cons_of_mem e ((ih htail x).mpr ⟨h1, hne⟩)

theorem gapInsert_mem_super (tn ts : Nat) : ∀ (g : List GapItem),
    ∀ x ∈ g, x ∈ gapInsert tn ts g := by
  intro g
  induction g with
  | nil => intro x hx; cases hx
  | cons e rest ih =>
    intro x hx
    unfold gapInsert
    by_cases h1 : tn < e.tn
    · rw [if_pos h1]
      exact List.mem_cons_of_mem _ hx
    · rw [if_neg h1]
      by_cases h2 : tn = e.tn
      · rw [if_pos h2]
        exact hx
      · rw [if_neg h2]
        rcases List.mem_cons.mp hx with h3 | h3
        · subst h3; exact List.mem_cons_self x _
        · exact List.mem_cons_of_mem e (ih x h3)

theorem gapInsert_mem_sub (tn ts : Nat) : ∀ (g : List GapItem),
    ∀ x ∈ gapInsert tn ts g, x ∈ g ∨ x = ⟨tn, ts⟩ := by
  intro g
  induction g with
  | nil => intro x hx; simp [gapInsert] at hx; exact Or.inr hx
  | cons e rest ih =>
    intro x hx
    unfold gapInsert at hx
    by_cases h1 : tn < e.tn
    · rw [if_pos h1] at hx
      rcases List.mem_cons.mp hx with h3 | h3
      · exact Or.inr h3
      · exact Or.inl h3
    · rw [if_neg h1] at hx
      by_cases h2 : tn = e.tn
      · rw [if_pos h2] at hx
        exact Or.inl hx
      · rw [if_neg h2] at hx
        rcases List.mem_cons.mp hx with h3 | h3
        · exact Or.inl (h3 ▸ List.mem_cons_self e rest)
        · rcases ih x h3 with h4 | h4
          · exact Or.inl (List.mem_cons_of_mem e h4)
          · exact Or.inr h4

theorem gapInsert_covers (tn ts : Nat) : ∀ g : List GapItem,
    ∃ e ∈ gapInsert tn ts g, e.tn = tn := by
  intro g
  induction g with
  | nil => exact ⟨⟨tn, ts⟩, by simp [gapInsert]⟩
  | cons e rest ih =>
    unfold gapInsert
    by_cases h1 : tn < e.tn
    · rw [if_pos h1]
      exact ⟨⟨tn, ts⟩, List.mem_cons_self _ _, rfl⟩
    · rw [if_neg h1]
      by_cases h2 : tn = e.tn
      · rw [if_pos h2]
        exact ⟨e, List.mem_cons_self e rest, h2.symm⟩
      · rw [if_neg h2]
        rcases ih with ⟨x, hx, hxtn⟩
        exact ⟨x, List.mem_cons_of_mem e hx, hxtn⟩

theorem gapInsert_pairwise (tn ts : Nat) : ∀ g : List GapItem,
    List.Pairwise (fun a b : GapItem => a.tn < b.tn) g →
    List.Pairwise (fun a b : GapItem => a.tn < b.tn) (gapInsert tn ts g) := by
  intro g
  induction g with
  | nil => intro _; simp [gapInsert]
  | cons e rest ih =>
    intro hp
    have hhead := (List.pairwise_cons.mp hp).1
    have htail := (List.pairwise_cons.mp hp).2
    unfold gapInsert
    by_cases h1 : tn < e.tn
    · rw [if_pos h1]
      refine List.pairwise_cons.mpr ⟨?_, hp⟩
      intro y hy
      rcases List.mem_cons.mp hy with h3 | h3
      · subst h3; exact h1
      · exact Nat.lt_trans h1 (hhead y h3)
    · rw [if_neg h1]
      by_cases h2 : tn = e.tn
      · rw [if_pos h2]
        exact hp
      · rw [if_neg h2]
        refine List.pairwise_cons.mpr ⟨?_, ih htail⟩
        intro y hy
        rcases gapInsert_mem_sub tn ts rest y hy with h3 | h3
        · exact hhead y h3
        · rw [h3]
          show e.tn < tn
          omega

theorem gapInsert_length_le (tn ts : Nat) : ∀ g : List GapItem,
    (gapInsert tn ts g).length ≤ g.length + 1 := by
  intro g
  induction g with
  | nil => simp [gapInsert]
  | cons e rest ih =>
    unfold gapInsert
    by_cases h1 : tn < e.tn
    · rw [if_pos h1]; simp
    · rw [if_neg h1]
      by_cases h2 : tn = e.tn
      · rw [if_pos h2]; simp
      · rw [if_neg h2]
        simpa using ih

/-- A strictly sorted gap buffer with keys in `[2, N]` holds at most `N - 1`
entries. -/
theorem gap_length_le (N : Nat) (g : List GapItem)
    (hp : List.Pairwise (fun a b : GapItem => a.tn < b.tn) g)
    (hb : ∀ e ∈ g, 2 ≤ e.tn ∧ e.tn ≤ N) :
    g.length ≤ N - 1 := by
  have hnd : (g.map GapItem.tn).Nodup := by
    have h : (g.map GapItem.tn).Pairwise (fun a b => a ≠ b) :=
      List.pairwise_map.mpr (hp.imp (fun h => Nat.ne_of_lt h))
    exact h
  have hsub : g.map GapItem.tn ⊆ List.range' 2 (N - 1) := by
    intro x hx
    rcases List.mem_map.mp hx with ⟨e, he, hEq⟩
    rcases hb e he with ⟨h2, h3⟩
    rw [List.mem_range'_1]
    omega
  have := (List.subperm_of_subset hnd hsub).length_le
  simpa using this

/-- At `now = 0` the prune is the identity (`0 - ts = 0` can never exceed the
TTL). -/
theorem prune_at_zero (ttl : Nat) (g : List GapItem) (m : ArbiterMetrics) :
    prune_expired 0 ttl g m = (g, m) := by
  cases g with
  | nil => rfl
  | cons e rest =>
    unfold prune_expired
    rw [if_neg (by omega)]

/-- The drain loop on a strictly sorted gap buffer removes exactly the
consecutive run `e, e+1, …, e+d-1` of buffered keys, appends them to `ready`
in order, and stops at the first key `e + d` not buffered. -/
theorem drainGaps_spec : ∀ (fuel e : Nat) (g : List GapItem) (r : List Nat)
    (m : ArbiterMetrics),
    List.Pairwise (fun a b : GapItem => a.tn < b.tn) g → g.length ≤ fuel →
    ∃ d,
      (drainGaps fuel e g r m).1 = e + d ∧
      (drainGaps fuel e g r m).2.2.1 = r ++ List.range' e d ∧
      (∀ x, x ∈ (drainGaps fuel e g r m).2.1 ↔
        x ∈ g ∧ (x.tn < e ∨ e + d ≤ x.tn)) ∧
      List.Pairwise (fun a b : GapItem => a.tn < b.tn)
        (drainGaps fuel e g r m).2.1 ∧
      gapFind (e + d) (drainGaps fuel e g r m).2.1 = none ∧
      g.length = (drainGaps fuel e g r m).2.1.length + d ∧
      (∀ j, e ≤ j → j < e + d → ∃ x ∈ g, x.tn = j) := by
  intro fuel
  induction fuel with
  | zero =>
    intro e g r m hp hlen
    have hg : g = [] := List.length_eq_zero.mp (Nat.le_zero.mp hlen)
    subst hg
    exact ⟨0, rfl, by simp [drainGaps], by simp [drainGaps], by simp [drainGaps],
      rfl, rfl, fun j h1 h2 => by omega⟩
  | succ fuel ih =>
    intro e g r m hp hlen
    cases hf : gapFind e g with
    | none =>
      have hstep : drainGaps (fuel + 1) e g r m = (e, g, r, m) := by
        unfold drainGaps
        rw [hf]
      refine ⟨0, by rw [hstep]; simp, by rw [hstep]; simp, ?_,
        by rw [hstep]; exact hp, by rw [hstep]; simpa using hf,
        by rw [hstep]; simp, fun j h1 h2 => by omega⟩
      intro x
      rw [hstep]
      constructor
      · intro hx
        exact ⟨hx, by omega⟩
      · intro hx
        exact hx.1
    | some it =>
      have hit := gapFind_some_mem e g it hf
      have hlen2 : (gapErase e g).length ≤ fuel := by
        have := gapErase_length e g it hf
        omega
      have hp2 : List.Pairwise (fun a b : GapItem => a.tn < b.tn) (gapErase e g) :=
        List.Pairwise.sublist (gapErase_sublist e g) hp
      rcases ih (e + 1) (gapErase e g) (r ++ [it.tn])
        { m with gap_filled := m.gap_filled + 1 } hp2 hlen2 with
        ⟨d, h1, h2, h3, h4, h5, h6, h7⟩
      have hstep : drainGaps (fuel + 1) e g r m =
          drainGaps fuel (e + 1) (gapErase e g) (r ++ [it.tn])
            { m with gap_filled := m.gap_filled + 1 } := by
        simp only [drainGaps]
        rw [hf]
      refine ⟨d + 1, ?_, ?_, ?_, ?_, ?_, ?_, ?_⟩
      · rw [hstep, h1]
        omega
      · rw [hstep, h2, hit.2]
        rw [List.range'_succ]
        simp
      · intro x
        rw [hstep]
        rw [h3 x, mem_gapErase e g hp x]
        constructor
        · intro ⟨⟨hx1, hx2⟩, hx3⟩
          exact ⟨hx1, by omega⟩
        · intro ⟨hx1, hx2⟩
          have hne : x.tn ≠ e := by omega
          exact ⟨⟨hx1, hne⟩, by omega⟩
      · rw [hstep]
        exact h4
      · rw [hstep]
        have : e + (d + 1) = e + 1 + d := by omega
        rw [this]
        exact h5
      · rw [hstep]
        have := gapErase_length e g it hf
        omega
      · intro j hj1 hj2
        rcases Nat.eq_or_lt_of_le hj1 with hj | hj
        · exact ⟨it, hit.1, by omega⟩
        · rcases h7 j (by omega) (by omega) with ⟨x, hx1, hx2⟩
          exact ⟨x, (gapErase_sublist e g).subset hx1, hx2⟩

/-- Effect of `processMsg` at time 0 on a completeness-run state with empty
`ready`: duplicates are dropped, future tracking numbers are buffered
(without eviction, the gap buffer being under capacity), and the expected one
is emitted with the consecutive buffered run drained to `ready`. -/
theorem processMsg_inv (N : Nat) (s : Arbiter) (tn : Nat)
    (hready : s.ready = [])
    (hexp1 : 1 ≤ s.expected) (hexpN : s.expected ≤ N + 1)
    (hbufA : ∀ x ∈ s.bufA, 1 ≤ x ∧ x ≤ N)
    (hbufB : ∀ x ∈ s.bufB, 1 ≤ x ∧ x ≤ N)
    (hgp : List.Pairwise (fun a b : GapItem => a.tn < b.tn) s.gap)
    (hgb : ∀ e ∈ s.gap, 2 ≤ e.tn ∧ e.tn ≤ N ∧ e.ts = 0)
    (hge : ∀ e ∈ s.gap, e.tn ≠ s.expected)
    (hcons : ∀ k, 1 ≤ k → k ≤ N → s.expected ≤ k →
      k ∈ s.bufA ∨ k ∈ s.bufB ∨ k = tn ∨ ∃ e ∈ s.gap, e.tn = k)
    (htn1 : 1 ≤ tn) (htnN : tn ≤ N)
    (hcap : N ≤ s.gap_capacity) :
    (processMsg 0 tn s).2.bufA = s.bufA ∧
    (processMsg 0 tn s).2.bufB = s.bufB ∧
    (processMsg 0 tn s).2.gap_capacity = s.gap_capacity ∧
    (processMsg 0 tn s).2.ttl = s.ttl ∧
    ArbInv N (processMsg 0 tn s).2 ∧
    (((processMsg 0 tn s).1 = none ∧ (processMsg 0 tn s).2.ready = [] ∧
        (processMsg 0 tn s).2.expected = s.expected ∧
        (processMsg 0 tn s).2.gap.length ≤ s.gap.length + 1) ∨
     ((processMsg 0 tn s).1 = some s.expected ∧ s.expected ≤ N ∧
        arbFirstPending (processMsg 0 tn s).2 = s.expected + 1 ∧
        (processMsg 0 tn s).2.ready.length + (processMsg 0 tn s).2.gap.length =
          s.gap.length)) := by
  have htn0 : ¬ tn = 0 := by omega
  by_cases hdup : tn < s.expected
  · -- duplicate: only `dup_dropped` changes
    have hstep : processMsg 0 tn s = (none,
        { s with metrics :=
            { s.metrics with dup_dropped := s.metrics.dup_dropped + 1 } }) := by
      unfold processMsg
      rw [if_neg htn0, if_pos hdup]
    rw [hstep]
    unfold ArbInv
    dsimp only
    refine ⟨rfl, rfl, rfl, rfl, ?_, Or.inl ⟨rfl, hready, rfl, by omega⟩⟩
    refine ⟨hexp1, hexpN, by simp [hready], by simp [hready],
      hbufA, hbufB, hgp, hgb, hge, ?_⟩
    intro k h1 h2 h3
    rcases hcons k h1 h2 h3 with h | h | h | h
    · exact Or.inl h
    · exact Or.inr (Or.inl h)
    · omega
    · exact Or.inr (Or.inr h)
  · by_cases hgap : s.expected < tn
    · -- future: buffered in the gap map, no eviction below capacity
      have hlenle : s.gap.length ≤ N - 1 :=
        gap_length_le N s.gap hgp (fun e he => ⟨(hgb e he).1, (hgb e he).2.1⟩)
      have hnocap : ¬ s.gap_capacity ≤ s.gap.length := by omega
      have hstep : processMsg 0 tn s = (none,
          { s with
            gap := gapInsert tn 0 s.gap
            metrics := { s.metrics with
              gap_detected := s.metrics.gap_detected + 1 } }) := by
        unfold processMsg
        rw [if_neg htn0, if_neg hdup, if_pos hgap]
        simp only [hnocap, if_false]
      rw [hstep]
      unfold ArbInv
      dsimp only
      refine ⟨rfl, rfl, rfl, rfl, ?_,
        Or.inl ⟨rfl, hready, rfl, gapInsert_length_le tn 0 s.gap⟩⟩
      refine ⟨hexp1, hexpN, by simp [hready], by simp [hready],
        hbufA, hbufB, gapInsert_pairwise tn 0 s.gap hgp, ?_, ?_, ?_⟩
      · intro e he
        rcases gapInsert_mem_sub tn 0 s.gap e he with h | h
        · exact hgb e h
        · rw [h]
          refine ⟨?_, ?_, rfl⟩
          · show 2 ≤ tn
            omega
          · show tn ≤ N
            omega
      · intro e he
        rcases gapInsert_mem_sub tn 0 s.gap e he with h | h
        · exact hge e h
        · rw [h]
          show tn ≠ s.expected
          omega
      · intro k h1 h2 h3
        rcases hcons k h1 h2 h3 with h | h | h | h
        · exact Or.inl h
        · exact Or.inr (Or.inl h)
        · subst h
          rcases gapInsert_covers k 0 s.gap with ⟨e, he1, he2⟩
          exact Or.inr (Or.inr ⟨e, he1, he2⟩)
        · rcases h with ⟨e, he1, he2⟩
          exact Or.inr (Or.inr ⟨e, gapInsert_mem_super tn 0 s.gap e he1, he2⟩)
    · -- in order: tn = expected; emit and drain
      have heq : tn = s.expected := by omega
      rcases drainGaps_spec s.gap.length (s.expected + 1) s.gap []
        s.metrics hgp (Nat.le_refl _) with ⟨d, h1, h2, h3, h4, h5, h6, h7⟩
      have hstep : processMsg 0 tn s = (some tn,
          { s with
            expected := (drainGaps s.gap.length (s.expected + 1) s.gap
              s.ready s.metrics).1
            gap := (drainGaps s.gap.length (s.expected + 1) s.gap
              s.ready s.metrics).2.1
            ready := (drainGaps s.gap.length (s.expected + 1) s.gap
              s.ready s.metrics).2.2.1
            metrics := (drainGaps s.gap.length (s.expected + 1) s.gap
              s.ready s.metrics).2.2.2 }) := by
        unfold processMsg
        rw [if_neg htn0, if_neg hdup, if_neg hgap, heq]
      rw [hready] at hstep
      have hdN : s.expected + d ≤ N := by
        rcases Nat.eq_zero_or_pos d with hd | hd
        · omega
        · rcases h7 (s.expected + d) (by omega) (by omega) with ⟨x, hx1, hx2⟩
          have := (hgb x hx1).2.1
          omega
      rw [hstep]
      unfold ArbInv arbFirstPending
      dsimp only
      refine ⟨rfl, rfl, rfl, rfl, ?_, Or.inr ⟨by rw [heq], by omega, ?_, ?_⟩⟩
      · refine ⟨by rw [h1]; omega, by rw [h1]; omega, ?_, ?_, hbufA, hbufB,
          h4, ?_, ?_, ?_⟩
        · rw [h1, h2]
          simp only [List.nil_append, List.length_range']
          omega
        · rw [h1, h2]
          simp only [List.nil_append, List.length_range']
          congr 1
          omega
        · intro e he
          have hm := (h3 e).mp he
          exact hgb e hm.1
        · intro e he
          have hfind := h5
          rw [gapFind_eq_none] at hfind
          rw [h1]
          exact hfind e he
        · intro k hk1 hk2 hk3
          rw [h1] at hk3
          rcases hcons k hk1 hk2 (by omega) with h | h | h | h
          · exact Or.inl h
          · exact Or.inr (Or.inl h)
          · omega
          · rcases h with ⟨e, he1, he2⟩
            refine Or.inr (Or.inr ⟨e, ?_, he2⟩)
            rw [h3 e]
            exact ⟨he1, by omega⟩
      · rw [h1, h2]
        simp only [List.nil_append, List.length_range']
        omega
      · rw [h2]
        simp only [List.nil_append, List.length_range']
        omega

/-- Popping and processing one message from a non-empty feed preserves the
invariant, strictly decreases the measure, and either emits nothing (first
pending unchanged) or emits exactly the first pending tracking number. -/
theorem consumeFrom_inv (N : Nat) (s : Arbiter) (srcIsA : Bool)
    (hInv : ArbInv N s) (hready : s.ready = []) (hcap : N ≤ s.gap_capacity)
    (hne : (if srcIsA then s.bufA else s.bufB) ≠ []) :
    ArbInv N (consumeFrom 0 srcIsA s).2 ∧
    (consumeFrom 0 srcIsA s).2.gap_capacity = s.gap_capacity ∧
    arbMeasure (consumeFrom 0 srcIsA s).2 < arbMeasure s ∧
    (((consumeFrom 0 srcIsA s).1 = none ∧
        (consumeFrom 0 srcIsA s).2.ready = [] ∧
        arbFirstPending (consumeFrom 0 srcIsA s).2 = arbFirstPending s) ∨
     ((consumeFrom 0 srcIsA s).1 = some (arbFirstPending s) ∧
        arbFirstPending s ≤ N ∧
        arbFirstPending (consumeFrom 0 srcIsA s).2 = arbFirstPending s + 1)) := by
  obtain ⟨hexp1, hexpN, hrlen, hrval, hbufA, hbufB, hgp, hgb, hge, hcons⟩ := hInv
  have hfp : arbFirstPending s = s.expected := by
    unfold arbFirstPending
    rw [hready]
    simp
  cases srcIsA with
  | true =>
    cases hA : s.bufA with
    | nil => exact absurd (by simpa using hA) hne
    | cons tn rest =>
      have hstep : consumeFrom 0 true s =
          processMsg 0 tn { s with bufA := rest } := by
        unfold consumeFrom
        simp only [if_true]
        rw [hA]
      have htn : 1 ≤ tn ∧ tn ≤ N := hbufA tn (by rw [hA]; simp)
      have hpm := processMsg_inv N { s with bufA := rest } tn hready hexp1 hexpN
        (fun x hx => hbufA x (by rw [hA]; exact List.mem_cons_of_mem tn hx))
        hbufB hgp hgb hge
        (fun k h1 h2 h3 => by
          rcases hcons k h1 h2 h3 with h | h | h
          · rw [hA] at h
            rcases List.mem_cons.mp h with h4 | h4
            · exact Or.inr (Or.inr (Or.inl h4))
            · exact Or.inl h4
          · exact Or.inr (Or.inl h)
          · exact Or.inr (Or.inr (Or.inr h)))
        htn.1 htn.2 hcap
      obtain ⟨pA, pB, pC, pT, pInv, pOut⟩ := hpm
      rw [hstep]
      refine ⟨pInv, pC, ?_, ?_⟩
      · unfold arbMeasure
        rw [pA, pB]
        dsimp only
        have hs0 : s.ready.length = 0 := by rw [hready]; rfl
        have hblen : s.bufA.length = rest.length + 1 := by rw [hA]; rfl
        rcases pOut with ⟨_, hr0, _, hglen⟩ | ⟨_, _, _, hsum⟩
        · have hglen2 : (processMsg 0 tn { s with bufA := rest }).2.gap.length ≤
              s.gap.length + 1 := hglen
          rw [hr0]
          simp only [List.length_nil]
          omega
        · have hsum2 : (processMsg 0 tn { s with bufA := rest }).2.ready.length +
              (processMsg 0 tn { s with bufA := rest }).2.gap.length =
              s.gap.length := hsum
          omega
      · rcases pOut with ⟨h1, h2, h3, _⟩ | ⟨h1, h2, h3, _⟩
        · refine Or.inl ⟨h1, h2, ?_⟩
          rw [hfp]
          unfold arbFirstPending
          rw [h2, h3]
          show s.expected - ([] : List Nat).length = s.expected
          simp
        · have h2s : s.expected ≤ N := h2
          have h3s : arbFirstPending (processMsg 0 tn { s with bufA := rest }).2 =
              s.expected + 1 := h3
          refine Or.inr ⟨?_, by rw [hfp]; exact h2s, by rw [h3s, hfp]⟩
          rw [h1, hfp]
  | false =>
    cases hB : s.bufB with
    | nil => exact absurd (by simpa using hB) hne
    | cons tn rest =>
      have hstep : consumeFrom 0 false s =
          processMsg 0 tn { s with bufB := rest } := by
        unfold consumeFrom
        simp only [Bool.false_eq_true, if_false]
        rw [hB]
      have htn : 1 ≤ tn ∧ tn ≤ N := hbufB tn (by rw [hB]; simp)
      have hpm := processMsg_inv N { s with bufB := rest } tn hready hexp1 hexpN
        hbufA
        (fun x hx => hbufB x (by rw [hB]; exact List.mem_cons_of_mem tn hx))
        hgp hgb hge
        (fun k h1 h2 h3 => by
          rcases hcons k h1 h2 h3 with h | h | h
          · exact Or.inl h
          · rw [hB] at h
            rcases List.mem_cons.mp h with h4 | h4
            · exact Or.inr (Or.inr (Or.inl h4))
            · exact Or.inr (Or.inl h4)
          · exact Or.inr (Or.inr (Or.inr h)))
        htn.1 htn.2 hcap
      obtain ⟨pA, pB, pC, pT, pInv, pOut⟩ := hpm
      rw [hstep]
      refine ⟨pInv, pC, ?_, ?_⟩
      · unfold arbMeasure
        rw [pA, pB]
        dsimp only
        have hs0 : s.ready.length = 0 := by rw [hready]; rfl
        have hblen : s.bufB.length = rest.length + 1 := by rw [hB]; rfl
        rcases pOut with ⟨_, hr0, _, hglen⟩ | ⟨_, _, _, hsum⟩
        · have hglen2 : (processMsg 0 tn { s with bufB := rest }).2.gap.length ≤
              s.gap.length + 1 := hglen
          rw [hr0]
          simp only [List.length_nil]
          omega
        · have hsum2 : (processMsg 0 tn { s with bufB := rest }).2.ready.length +
              (processMsg 0 tn { s with bufB := rest }).2.gap.length =
              s.gap.length := hsum
          omega
      · rcases pOut with ⟨h1, h2, h3, _⟩ | ⟨h1, h2, h3, _⟩
        · refine Or.inl ⟨h1, h2, ?_⟩
          rw [hfp]
          unfold arbFirstPending
          rw [h2, h3]
          show s.expected - ([] : List Nat).length = s.expected
          simp
        · have h2s : s.expected ≤ N := h2
          have h3s : arbFirstPending (processMsg 0 tn { s with bufB := rest }).2 =
              s.expected + 1 := h3
          refine Or.inr ⟨?_, by rw [hfp]; exact h2s, by rw [h3s, hfp]⟩
          rw [h1, hfp]

theorem pick_next_empty (firstIsA : Bool) (s : Arbiter)
    (hA : s.bufA = []) (hB : s.bufB = []) :
    pick_next 0 firstIsA s = (none, s) := by
  cases firstIsA <;> simp [pick_next, hA, hB]

/-- One `pick_next` round from a state with empty `ready` and at least one
non-empty feed: invariant kept, measure strictly down, output none (first
pending unchanged, `ready` still empty) or exactly the first pending. -/
theorem pick_next_inv (N : Nat) (s : Arbiter) (firstIsA : Bool)
    (hInv : ArbInv N s) (hready : s.ready = []) (hcap : N ≤ s.gap_capacity)
    (hne : ¬ (s.bufA = [] ∧ s.bufB = [])) :
    ArbInv N (pick_next 0 firstIsA s).2 ∧
    (pick_next 0 firstIsA s).2.gap_capacity = s.gap_capacity ∧
    arbMeasure (pick_next 0 firstIsA s).2 < arbMeasure s ∧
    (((pick_next 0 firstIsA s).1 = none ∧
        (pick_next 0 firstIsA s).2.ready = [] ∧
        arbFirstPending (pick_next 0 firstIsA s).2 = arbFirstPending s) ∨
     ((pick_next 0 firstIsA s).1 = some (arbFirstPending s) ∧
        arbFirstPending s ≤ N ∧
        arbFirstPending (pick_next 0 firstIsA s).2 = arbFirstPending s + 1)) := by
  cases firstIsA with
  | true =>
    cases hA : s.bufA with
    | nil =>
      cases hB : s.bufB with
      | nil => exact absurd ⟨hA, hB⟩ hne
      | cons y ys =>
        have hstep : pick_next 0 true s = consumeFrom 0 false s := by
          unfold pick_next
          simp only [if_true]
          rw [hA, hB]
          rfl
        rw [hstep]
        exact consumeFrom_inv N s false hInv hready hcap (by simp [hB])
    | cons x xs =>
      cases hB : s.bufB with
      | nil =>
        have hstep : pick_next 0 true s = consumeFrom 0 true s := by
          unfold pick_next
          simp only [if_true]
          rw [hA, hB]
        rw [hstep]
        exact consumeFrom_inv N s true hInv hready hcap (by simp [hA])
      | cons y ys =>
        by_cases hxy : x ≤ y
        · have hstep : pick_next 0 true s = consumeFrom 0 true s := by
            unfold pick_next
            simp only [if_true]
            rw [hA, hB]
            dsimp only
            rw [if_pos hxy]
          rw [hstep]
          exact consumeFrom_inv N s true hInv hready hcap (by simp [hA])
        · have hstep : pick_next 0 true s = consumeFrom 0 false s := by
            unfold pick_next
            simp only [if_true]
            rw [hA, hB]
            dsimp only
            rw [if_neg hxy]
            rfl
          rw [hstep]
          exact consumeFrom_inv N s false hInv hready hcap (by simp [hB])
  | false =>
    cases hA : s.bufB with
    | nil =>
      cases hB : s.bufA with
      | nil => exact absurd ⟨hB, hA⟩ hne
      | cons y ys =>
        have hstep : pick_next 0 false s = consumeFrom 0 true s := by
          unfold pick_next
          simp only [Bool.false_eq_true, if_false]
          rw [hA, hB]
          rfl
        rw [hstep]
        exact consumeFrom_inv N s true hInv hready hcap (by simp [hB])
    | cons x xs =>
      cases hB : s.bufA with
      | nil =>
        have hstep : pick_next 0 false s = consumeFrom 0 false s := by
          unfold pick_next
          simp only [Bool.false_eq_true, if_false]
          rw [hA, hB]
        rw [hstep]
        exact consumeFrom_inv N s false hInv hready hcap (by simp [hA])
      | cons y ys =>
        by_cases hxy : x ≤ y
        · have hstep : pick_next 0 false s = consumeFrom 0 false s := by
            unfold pick_next
            simp only [Bool.false_eq_true, if_false]
            rw [hA, hB]
            dsimp only
            rw [if_pos hxy]
          rw [hstep]
          exact consumeFrom_inv N s false hInv hready hcap (by simp [hA])
        · have hstep : pick_next 0 false s = consumeFrom 0 true s := by
            unfold pick_next
            simp only [Bool.false_eq_true, if_false]
            rw [hA, hB]
            dsimp only
            rw [if_neg hxy]
            rfl
          rw [hstep]
          exact consumeFrom_inv N s true hInv hready hcap (by simp [hB])

/-- One `next_message` call at time 0 with no new arrivals: the invariant is
preserved and the call either emits nothing, emits exactly the first pending
tracking number, or is the identity on a fully drained state. -/
theorem next_message_inv (N : Nat) (s : Arbiter)
    (hInv : ArbInv N s) (hcap : N ≤ s.gap_capacity) :
    ArbInv N (next_message 0 [] [] s).2 ∧
    (next_message 0 [] [] s).2.gap_capacity = s.gap_capacity ∧
    (((next_message 0 [] [] s).1 = none ∧
        arbFirstPending (next_message 0 [] [] s).2 = arbFirstPending s) ∨
     ((next_message 0 [] [] s).1 = some (arbFirstPending s) ∧
        arbFirstPending s ≤ N ∧
        arbFirstPending (next_message 0 [] [] s).2 = arbFirstPending s + 1)) ∧
    (arbMeasure (next_message 0 [] [] s).2 < arbMeasure s ∨
     ((next_message 0 [] [] s).1 = none ∧ (next_message 0 [] [] s).2 = s ∧
        s.bufA = [] ∧ s.bufB = [] ∧ s.ready = [])) := by
  have hprune := prune_at_zero s.ttl s.gap s.metrics
  cases hr : s.ready with
  | cons r rs =>
    -- serve the ready queue
    have hstep : next_message 0 [] [] s = (some r, { s with ready := rs }) := by
      unfold next_message
      rw [hprune]
      dsimp only
      rw [hr]
    obtain ⟨hexp1, hexpN, hrlen, hrval, hbufA, hbufB, hgp, hgb, hge, hcons⟩ := hInv
    rw [hr] at hrlen hrval
    have hlen : rs.length + 1 ≤ s.expected - 1 := by simpa using hrlen
    have hrval2 : r :: rs =
        List.range' (s.expected - (rs.length + 1)) (rs.length + 1) := by
      simpa using hrval
    rw [List.range'_succ] at hrval2
    have hhead : r = s.expected - (rs.length + 1) := (List.cons.injEq _ _ _ _).mp hrval2 |>.1
    have htail : rs = List.range' (s.expected - (rs.length + 1) + 1) rs.length :=
      (List.cons.injEq _ _ _ _).mp hrval2 |>.2
    rw [hstep]
    have hfps : arbFirstPending s = s.expected - (rs.length + 1) := by
      unfold arbFirstPending
      rw [hr]
      simp
    refine ⟨?_, rfl, ?_, ?_⟩
    · refine ⟨hexp1, hexpN, by dsimp only; omega, ?_, hbufA, hbufB, hgp, hgb,
        hge, hcons⟩
      dsimp only
      conv_lhs => rw [htail]
      congr 1
      omega
    · refine Or.inr ⟨by rw [hfps, hhead], by rw [hfps]; omega, ?_⟩
      rw [hfps]
      unfold arbFirstPending
      dsimp only
      omega
    · left
      unfold arbMeasure
      dsimp only
      rw [hr]
      simp only [List.length_cons]
      omega
  | nil =>
    have hseq : { s with ready := ([] : List Nat) } = s := by
      rw [← hr]
    have hstep : next_message 0 [] [] s =
        (match pick_next 0 true { s with ready := ([] : List Nat) } with
         | (some m, s3) => (some m, s3)
         | (none, s3) => pick_next 0 false s3) := by
      unfold next_message
      rw [hprune]
      dsimp only
      rw [hr]
      simp only [List.append_nil]
    rw [hseq] at hstep
    rw [hstep]
    by_cases hboth : s.bufA = [] ∧ s.bufB = []
    · rw [pick_next_empty true s hboth.1 hboth.2]
      dsimp only
      rw [pick_next_empty false s hboth.1 hboth.2]
      exact ⟨hInv, rfl, Or.inl ⟨rfl, rfl⟩,
        Or.inr ⟨rfl, rfl, hboth.1, hboth.2, by simp [hr]⟩⟩
    · have hp1 := pick_next_inv N s true hInv hr hcap hboth
      cases hpick : pick_next 0 true s with
      | mk o s3 =>
        rw [hpick] at hp1
        dsimp only at hp1
        cases o with
        | some m =>
          dsimp only
          rcases hp1.2.2.2 with ⟨hno, _, _⟩ | ⟨hsome, hle, hfp⟩
          · cases hno
          · have hm : m = arbFirstPending s := by
              have := hsome
              simpa using this
            exact ⟨hp1.1, hp1.2.1, Or.inr ⟨by rw [hm], hle, hfp⟩,
              Or.inl hp1.2.2.1⟩
        | none =>
          dsimp only
          rcases hp1.2.2.2 with ⟨_, hr3, hfp3⟩ | ⟨hsome, _, _⟩
          · by_cases hboth3 : s3.bufA = [] ∧ s3.bufB = []
            · rw [pick_next_empty false s3 hboth3.1 hboth3.2]
              exact ⟨hp1.1, hp1.2.1, Or.inl ⟨rfl, hfp3⟩, Or.inl hp1.2.2.1⟩
            · have hcap3 : N ≤ s3.gap_capacity := by
                rw [hp1.2.1]
                exact hcap
              have hp2 := pick_next_inv N s3 false hp1.1 hr3 hcap3 hboth3
              refine ⟨hp2.1, by rw [hp2.2.1, hp1.2.1], ?_,
                Or.inl (Nat.lt_trans hp2.2.2.1 hp1.2.2.1)⟩
              rcases hp2.2.2.2 with ⟨h1, _, h3⟩ | ⟨h1, h2, h3⟩
              · exact Or.inl ⟨h1, by rw [h3, hfp3]⟩
              · exact Or.inr ⟨by rw [h1, hfp3], by rw [hfp3] at h2; exact h2,
                  by rw [h3, hfp3]⟩
          · cases hsome

/-- A state on which `next_message` returns nothing and changes nothing
absorbs every further call. -/
theorem arbSteps_fix (s : Arbiter) (h : next_message 0 [] [] s = (none, s))
    (fuel : Nat) : arbSteps fuel s = ([], s) := by
  induction fuel with
  | zero => rfl
  | succ n ih =>
      simp only [arbSteps]
      rw [h, ih]
      rfl

/-- When both feed buffers are exhausted, conservation forces `expected` past
`N`: every pending number would have to sit in the gap buffer, which never
holds `expected`. -/
theorem arb_terminal_expected (N : Nat) (s : Arbiter) (hInv : ArbInv N s)
    (hA : s.bufA = []) (hB : s.bufB = []) : s.expected = N + 1 := by
  obtain ⟨hexp1, hexpN, _, _, _, _, _, _, hge, hcons⟩ := hInv
  by_contra hne
  have hle : s.expected ≤ N := by omega
  rcases hcons s.expected hexp1 hle le_rfl with h | h | ⟨e, he, hetn⟩
  · rw [hA] at h
    cases h
  · rw [hB] at h
    cases h
  · exact hge e he hetn

/-- Completeness of the repeated-call loop: under the invariant, with the
gap capacity at least `N` and fuel at least the measure, the concatenated
output is exactly the tracking numbers from the first pending one up to
`N`. -/
theorem arbSteps_complete (N : Nat) : ∀ (fuel : Nat) (s : Arbiter),
    ArbInv N s → N ≤ s.gap_capacity → arbMeasure s ≤ fuel →
    (arbSteps fuel s).1 =
      List.range' (arbFirstPending s) (N + 1 - arbFirstPending s) := by
  intro fuel
  induction fuel with
  | zero =>
      intro s hInv hcap hm
      unfold arbMeasure at hm
      have hA : s.bufA = [] := List.eq_nil_of_length_eq_zero (by omega)
      have hB : s.bufB = [] := List.eq_nil_of_length_eq_zero (by omega)
      have hR : s.ready = [] := List.eq_nil_of_length_eq_zero (by omega)
      have hexp := arb_terminal_expected N s hInv hA hB
      have hfp : arbFirstPending s = N + 1 := by
        unfold arbFirstPending
        rw [hexp, hR]
        simp
      rw [hfp]
      simp [arbSteps]
  | succ n ih =>
      intro s hInv hcap hm
      obtain ⟨hInv2, hcap2, hout, hdec⟩ := next_message_inv N s hInv hcap
      have hunf : (arbSteps (n + 1) s).1 =
          (next_message 0 [] [] s).1.toList ++
            (arbSteps n (next_message 0 [] [] s).2).1 := rfl
      rcases hdec with hlt | ⟨hnone, hid, hA, hB, hR⟩
      · have hcap' : N ≤ (next_message 0 [] [] s).2.gap_capacity := by
          rw [hcap2]
          exact hcap
        have hih := ih (next_message 0 [] [] s).2 hInv2 hcap' (by omega)
        rcases hout with ⟨ho, hfp⟩ | ⟨ho, hle, hfp⟩
        · rw [hunf, ho, hih, hfp]
          simp
        · rw [hunf, ho, hih, hfp]
          have hsp : N + 1 - arbFirstPending s =
              (N + 1 - (arbFirstPending s + 1)) + 1 := by omega
          rw [hsp, List.range'_succ]
          simp
      · have hfix : next_message 0 [] [] s = (none, s) := by
          rw [Prod.ext_iff]
          exact ⟨hnone, hid⟩
        have hexp := arb_terminal_expected N s hInv hA hB
        have hfp : arbFirstPending s = N + 1 := by
          unfold arbFirstPending
          rw [hexp, hR]
          simp
        rw [arbSteps_fix s hfix (n + 1), hfp]
        simp

/-- C5 counterexample: with `gap_capacity = 1` the claim fails even though
every tracking number `1..3` arrives on feed A at time 0 (well within the
TTL): feed A carries `[2, 3, 1]`, the capacity eviction in `pick_next`
(arbiter.cpp line 76) discards the buffered `2` when `3` arrives, so the
run emits only `[1]` — `2` and `3` never appear in the output. -/
theorem C5_counterexample :
    (∀ k < 4, 1 ≤ k → k ∈ aCap1.bufA ∨ k ∈ aCap1.bufB) ∧
    aCap1.expected = 1 ∧ aCap1.ready = [] ∧ aCap1.gap = [] ∧
    (arbSteps 6 aCap1).1 = [1] ∧ 2 ∉ (arbSteps 6 aCap1).1 ∧
    3 ∉ (arbSteps 6 aCap1).1 := by
  decide

/-- C5 (corrected): the completeness guarantee additionally needs the gap
capacity to be at least `N`; the original claim is false because the
capacity eviction (arbiter.cpp line 76) can discard a buffered message that
never reappears.  With that hypothesis added: if both feeds deliver only
tracking numbers in `[1, N]`, every number in `[1, N]` appears on at least
one feed, and all messages arrive at time 0 (within the TTL, so
`prune_expired` never fires), then repeated `next_message` calls — with
fuel twice the total feed length — output every tracking number `1..N`
exactly once and in increasing order. -/
theorem C5_arbiter_completeness (N cap : Nat) (A B : List Nat)
    (hA : ∀ x ∈ A, 1 ≤ x ∧ x ≤ N) (hB : ∀ x ∈ B, 1 ≤ x ∧ x ≤ N)
    (hcov : ∀ k, 1 ≤ k → k ≤ N → k ∈ A ∨ k ∈ B)
    (hcap : N ≤ cap) :
    (arbSteps (2 * (A.length + B.length))
        { expected := 1
          gap := []
          gap_capacity := cap
          ttl := 50
          metrics := {}
          bufA := A
          bufB := B
          ready := [] }).1 = List.range' 1 N := by
  have hInv : ArbInv N
      { expected := 1
        gap := []
        gap_capacity := cap
        ttl := 50
        metrics := {}
        bufA := A
        bufB := B
        ready := [] } := by
    refine ⟨le_refl 1, by dsimp only; omega, by simp, by simp, hA, hB,
      List.Pairwise.nil,
      by simp, by simp, ?_⟩
    intro k h1 hN _
    rcases hcov k h1 hN with h | h
    · exact Or.inl h
    · exact Or.inr (Or.inl h)
  have hout := arbSteps_complete N (2 * (A.length + B.length)) _ hInv hcap
    (by unfold arbMeasure; simp)
  rw [hout]
  unfold arbFirstPending
  simp

/-- C5 witness: two feeds `[1]` and `[2]` with `N = 2` and the default
capacity produce exactly `[1, 2]`. -/
theorem C5_arbiter_completeness_witness :
    (arbSteps 4
        { expected := 1
          gap := []
          gap_capacity := 65536
          ttl := 50
          metrics := {}
          bufA := [1]
          bufB := [2]
          ready := [] }).1 = List.range' 1 2 :=
  C5_arbiter_completeness 2 65536 [1] [2] (by decide) (by decide)
    (by
      intro k h1 h2
      interval_cases k
      · exact Or.inl (by decide)
      · exact Or.inr (by decide))
    (by decide)

/-- C6 witness: at time 100 with TTL 10, the entry keyed 5 stamped at 2 is
expired and dropped, and the entry keyed 7 stamped at 95 survives. -/
theorem C6_prune_drops_expired_prefix_witness :
    (prune_expired 100 10 [⟨5, 2⟩, ⟨7, 95⟩] {}).1 = [⟨7, 95⟩] ∧
    (prune_expired 100 10 [⟨5, 2⟩, ⟨7, 95⟩] {}).2.gap_dropped_ttl = 1 := by
  have h := C6_prune_drops_expired_prefix 100 10 [⟨5, 2⟩, ⟨7, 95⟩] {}
  exact ⟨h.1.trans (by decide), by rw [h.2]; decide⟩

/-! ## C1: level order counts on the `UltraOrderBook` -/

theorem sub16_one (x : Nat) (h0 : 0 < x) (hlt : x < 2 ^ 16) :
    sub16 x 1 = x - 1 := by
  unfold sub16
  omega

theorem setLevel_pool (b : UltraBook) (s : Bool) (idx : Nat)
    (lv : UltraPriceLevel) : (b.setLevel s idx lv).pool = b.pool := by
  cases s <;> rfl

theorem setLevel_entries (b : UltraBook) (s : Bool) (idx : Nat)
    (lv : UltraPriceLevel) : (b.setLevel s idx lv).entries = b.entries := by
  cases s <;> rfl

theorem setLevel_stack_top (b : UltraBook) (s : Bool) (idx : Nat)
    (lv : UltraPriceLevel) : (b.setLevel s idx lv).stack_top = b.stack_top := by
  cases s <;> rfl

theorem setLevel_capacity (b : UltraBook) (s : Bool) (idx : Nat)
    (lv : UltraPriceLevel) : (b.setLevel s idx lv).capacity = b.capacity := by
  cases s <;> rfl

theorem levels_setLevel (b : UltraBook) (s0 : Bool) (idx0 : Nat)
    (lv : UltraPriceLevel) (s : Bool) (idx : Nat) :
    (b.setLevel s0 idx0 lv).levels s idx =
      if s = s0 ∧ idx = idx0 then lv else b.levels s idx := by
  cases s0 <;> cases s <;>
    by_cases h : idx = idx0 <;>
      simp [UltraBook.setLevel, UltraBook.levels, updf, h]

theorem countP_congr_mem {l : List Nat} {p q : Nat → Bool}
    (h : ∀ a ∈ l, p a = q a) : l.countP p = l.countP q := by
  induction l with
  | nil => rfl
  | cons a t ih =>
      rw [List.countP_cons, List.countP_cons, h a (by simp),
        ih (fun x hx => h x (by simp [hx]))]

theorem countP_update (l : List Nat) (i : Nat) (hnd : l.Nodup) (hi : i ∈ l)
    (p q : Nat → Bool) (hagree : ∀ j ∈ l, j ≠ i → p j = q j) :
    l.countP q + (if p i then 1 else 0) =
      l.countP p + (if q i then 1 else 0) := by
  have hperm := List.perm_cons_erase hi
  rw [hperm.countP_eq q, hperm.countP_eq p, List.countP_cons, List.countP_cons]
  have heq : (l.erase i).countP p = (l.erase i).countP q := by
    apply countP_congr_mem
    intro a ha
    have hai : a ≠ i ∧ a ∈ l := (List.Nodup.mem_erase_iff hnd).mp ha
    exact hagree a hai.2 hai.1
  rw [heq]
  omega

theorem isChain_congr (p1 p2 : Nat → UltraOrder) :
    ∀ (l : List Nat) (first : Option Nat),
      (∀ j ∈ l, (p2 j).next = (p1 j).next) →
      IsChain p1 first l → IsChain p2 first l := by
  intro l
  induction l with
  | nil =>
      intro first _ hc
      cases first with
      | none => trivial
      | some i => exact hc.elim
  | cons j rest ih =>
      intro first h hc
      cases first with
      | none => exact hc.elim
      | some i =>
          obtain ⟨hij, hrest⟩ := hc
          refine ⟨hij, ?_⟩
          rw [h i (by rw [hij]; exact List.mem_cons_self j rest)]
          exact ih _ (fun x hx => h x (List.mem_cons_of_mem j hx)) hrest

theorem ultraChain_of_isChain (pool : Nat → UltraOrder) :
    ∀ (l : List Nat) (first : Option Nat) (fuel : Nat),
      IsChain pool first l → l.length ≤ fuel →
      ultraChain pool first fuel = l := by
  intro l
  induction l with
  | nil =>
      intro first fuel hc _
      cases first with
      | none => cases fuel <;> rfl
      | some i => exact hc.elim
  | cons j rest ih =>
      intro first fuel hc hlen
      cases first with
      | none => exact hc.elim
      | some i =>
          obtain ⟨hij, hrest⟩ := hc
          cases fuel with
          | zero => simp at hlen
          | succ f =>
              simp only [ultraChain]
              rw [ih _ f hrest (by simpa using hlen), hij]

theorem nodup_bounded_length_le (l : List Nat) (n : Nat) (hnd : l.Nodup)
    (hmem : ∀ i ∈ l, i < n) : l.length ≤ n := by
  have hsub : l ⊆ List.range n := fun x hx => List.mem_range.mpr (hmem x hx)
  have hle := List.Subperm.length_le (List.subperm_of_subset hnd hsub)
  simpa using hle

theorem ultra_insert_go_shape (entries : Nat → HashEntry) (order_id oi h : Nat) :
    ∀ (rem i : Nat) (ft : Option Nat) (s : Nat),
      ultra_insert_go entries order_id oi h i rem ft s = entries s ∨
      ultra_insert_go entries order_id oi h i rem ft s =
        ⟨order_id, some oi⟩ := by
  intro rem
  induction rem with
  | zero =>
      intro i ft s
      simp only [ultra_insert_go, updf]
      split
      · exact Or.inr rfl
      · exact Or.inl rfl
  | succ r ih =>
      intro i ft s
      simp only [ultra_insert_go]
      split
      · simp only [updf]
        split
        · exact Or.inr rfl
        · exact Or.inl rfl
      · split
        · rename_i hk
          simp only [updf]
          split
          · exact Or.inr (by rw [hk])
          · exact Or.inl rfl
        · exact ih _ _ s

theorem ultra_insert_shape (entries : Nat → HashEntry) (order_id oi s : Nat) :
    ultra_insert entries order_id oi s = entries s ∨
      ultra_insert entries order_id oi s = ⟨order_id % 2 ^ 64, some oi⟩ := by
  unfold ultra_insert
  exact ultra_insert_go_shape entries (order_id % 2 ^ 64) oi _ 64 0 none s

theorem ultra_remove_go_shape (entries : Nat → HashEntry) (order_id h : Nat) :
    ∀ (rem i : Nat) (s : Nat),
      ultra_remove_go entries order_id h i rem s = entries s ∨
      ultra_remove_go entries order_id h i rem s = ⟨TOMBSTONE, none⟩ := by
  intro rem
  induction rem with
  | zero =>
      intro i s
      exact Or.inl rfl
  | succ r ih =>
      intro i s
      simp only [ultra_remove_go]
      split
      · simp only [updf]
        split
        · exact Or.inr rfl
        · exact Or.inl rfl
      · split
        · exact Or.inl rfl
        · exact ih _ s

theorem ultra_remove_shape (entries : Nat → HashEntry) (order_id s : Nat) :
    ultra_remove entries order_id s = entries s ∨
      ultra_remove entries order_id s = ⟨TOMBSTONE, none⟩ := by
  unfold ultra_remove
  exact ultra_remove_go_shape entries (order_id % 2 ^ 64) _ 64 0 s

theorem ultra_find_go_sound (entries : Nat → HashEntry) (order_id h : Nat) :
    ∀ (rem i j : Nat),
      ultra_find_go entries order_id h i rem = some j →
      ∃ s, (entries s).order = some j := by
  intro rem
  induction rem with
  | zero =>
      intro i j hfind
      simp [ultra_find_go] at hfind
  | succ r ih =>
      intro i j hfind
      simp only [ultra_find_go] at hfind
      split at hfind
      · exact ⟨(h + i) % ULTRA_HASH_SIZE, hfind⟩
      · split at hfind
        · cases hfind
        · exact ih _ j hfind

theorem ultra_find_sound (entries : Nat → HashEntry) (order_id j : Nat)
    (hf : ultra_find entries order_id = some j) :
    ∃ s, (entries s).order = some j := by
  unfold ultra_find at hf
  exact ultra_find_go_sound entries (order_id % 2 ^ 64) _ 64 0 j hf

theorem get_side_set_id_side (o : UltraOrder) (id : Nat) (side : Char) :
    (o.set_id_side id side).get_side = if side = 'B' then 'B' else 'S' := by
  unfold UltraOrder.set_id_side UltraOrder.get_side
  by_cases hb : side = 'B' <;> simp [hb] <;> omega

theorem levels_set_pool (b : UltraBook) (P : Nat → UltraOrder)
    (s : Bool) (idx : Nat) :
    ({ b with pool := P } : UltraBook).levels s idx = b.levels s idx := by
  cases s <;> rfl

theorem levels_set_pool_entries (b : UltraBook) (P : Nat → UltraOrder)
    (E : Nat → HashEntry) (s : Bool) (idx : Nat) :
    ({ b with pool := P, entries := E } : UltraBook).levels s idx =
      b.levels s idx := by
  cases s <;> rfl

theorem levels_set_pool_stack_entries (b : UltraBook) (P : Nat → UltraOrder)
    (n : Nat) (E : Nat → HashEntry) (s : Bool) (idx : Nat) :
    ({ b with pool := P, stack_top := n, entries := E } : UltraBook).levels
        s idx = b.levels s idx := by
  cases s <;> rfl

theorem ultra_executeOrder_eq (b : UltraBook) (orderId eq i : Nat)
    (hf : ultra_find b.entries orderId = some i) :
    ultra_executeOrder b orderId eq =
      { UltraBook.setLevel b (decide ((b.pool i).get_side = 'B'))
          (ultra_price_to_index (b.pool i).price)
          { b.levels (decide ((b.pool i).get_side = 'B'))
              (ultra_price_to_index (b.pool i).price) with
            total_quantity := sub32
              (b.levels (decide ((b.pool i).get_side = 'B'))
                (ultra_price_to_index (b.pool i).price)).total_quantity
              (min (eq % 2 ^ 32) (b.pool i).quantity)
            order_count :=
              if (b.pool i).quantity - min (eq % 2 ^ 32) (b.pool i).quantity = 0
              then sub16 (b.levels (decide ((b.pool i).get_side = 'B'))
                  (ultra_price_to_index (b.pool i).price)).order_count 1
              else (b.levels (decide ((b.pool i).get_side = 'B'))
                  (ultra_price_to_index (b.pool i).price)).order_count } with
        pool := updf b.pool i
          { b.pool i with quantity :=
              (b.pool i).quantity - min (eq % 2 ^ 32) (b.pool i).quantity } } := by
  unfold ultra_executeOrder
  rw [hf]
  by_cases hside : (b.pool i).get_side = 'B' <;>
    simp [hside, UltraBook.setLevel, UltraBook.levels]

theorem ultra_deleteOrder_eq (b : UltraBook) (orderId i : Nat)
    (hf : ultra_find b.entries orderId = some i) :
    ultra_deleteOrder b orderId =
      { UltraBook.setLevel b (decide ((b.pool i).get_side = 'B'))
          (ultra_price_to_index (b.pool i).price)
          { b.levels (decide ((b.pool i).get_side = 'B'))
              (ultra_price_to_index (b.pool i).price) with
            total_quantity := sub32
              (b.levels (decide ((b.pool i).get_side = 'B'))
                (ultra_price_to_index (b.pool i).price)).total_quantity
              (b.pool i).quantity
            order_count := sub16
              (b.levels (decide ((b.pool i).get_side = 'B'))
                (ultra_price_to_index (b.pool i).price)).order_count 1 } with
        pool := updf b.pool i { b.pool i with quantity := 0 }
        entries := ultra_remove b.entries orderId } := by
  unfold ultra_deleteOrder
  rw [hf]
  by_cases hside : (b.pool i).get_side = 'B' <;>
    simp [hside, UltraBook.setLevel, UltraBook.levels]

theorem ultra_addOrder_eq (b : UltraBook) (orderId : Nat) (side : Char)
    (q p : Nat) (hdup : ultra_find b.entries orderId = none)
    (hcap : b.stack_top < b.capacity) :
    ultra_addOrder b orderId side q p =
      { UltraBook.setLevel b (decide (side = 'B'))
          (ultra_price_to_index (p % 2 ^ 32))
          { total_quantity :=
              ((b.levels (decide (side = 'B'))
                  (ultra_price_to_index (p % 2 ^ 32))).total_quantity +
                q % 2 ^ 32) % 2 ^ 32
            order_count :=
              ((b.levels (decide (side = 'B'))
                  (ultra_price_to_index (p % 2 ^ 32))).order_count + 1) % 2 ^ 16
            first_order := some b.stack_top } with
        pool := updf b.pool b.stack_top
          { ({} : UltraOrder).set_id_side orderId side with
            quantity := q % 2 ^ 32
            price := p % 2 ^ 32
            next := (b.levels (decide (side = 'B'))
                (ultra_price_to_index (p % 2 ^ 32))).first_order }
        stack_top := b.stack_top + 1
        entries := ultra_insert b.entries orderId b.stack_top } := by
  unfold ultra_addOrder
  rw [hdup]
  rw [if_neg (by simp)]
  rw [if_neg (by omega)]
  by_cases hside : side = 'B' <;>
    simp [hside, UltraBook.setLevel, UltraBook.levels]

theorem sub16_lt (a b : Nat) : sub16 a b < 2 ^ 16 := by
  unfold sub16
  omega

theorem ultraInv_exec (b : UltraBook) (orderId eq : Nat)
    (hInv : UltraCountInv b) (hsafe : ultraTargetSafe b orderId = true) :
    UltraCountInv (ultra_executeOrder b orderId eq) := by
  cases hf : ultra_find b.entries orderId with
  | none =>
      have hb : ultra_executeOrder b orderId eq = b := by
        unfold ultra_executeOrder
        rw [hf]
      rw [hb]
      exact hInv
  | some i =>
      obtain ⟨ch, hchain, hmem, hnd, hdisj, hcount, hlt, hhash⟩ := hInv
      have hq : 0 < (b.pool i).quantity := by
        unfold ultraTargetSafe at hsafe
        rw [hf] at hsafe
        simpa using hsafe
      obtain ⟨e0, he0⟩ := ultra_find_sound b.entries orderId i hf
      have hiMem := hhash e0 i he0
      rw [ultra_executeOrder_eq b orderId eq i hf]
      set q' := (b.pool i).quantity - min (eq % 2 ^ 32) (b.pool i).quantity
        with hq'def
      set s0 := decide ((b.pool i).get_side = 'B') with hs0def
      set idx0 := ultra_price_to_index (b.pool i).price with hidx0def
      set P := updf b.pool i { b.pool i with quantity := q' } with hPdef
      set LV := { b.levels s0 idx0 with
        total_quantity := sub32 (b.levels s0 idx0).total_quantity
          (min (eq % 2 ^ 32) (b.pool i).quantity)
        order_count := if q' = 0 then sub16 (b.levels s0 idx0).order_count 1
          else (b.levels s0 idx0).order_count } with hLV
      have hPnext : ∀ j, (P j).next = (b.pool j).next := by
        intro j
        by_cases hj : j = i
        · subst hj
          rw [hPdef, updf_apply_self]
        · rw [hPdef, updf_apply_ne _ _ _ _ hj]
      have hPprice : ∀ j, (P j).price = (b.pool j).price := by
        intro j
        by_cases hj : j = i
        · subst hj
          rw [hPdef, updf_apply_self]
        · rw [hPdef, updf_apply_ne _ _ _ _ hj]
      have hPside : ∀ j, (P j).get_side = (b.pool j).get_side := by
        intro j
        by_cases hj : j = i
        · subst hj
          rw [hPdef, updf_apply_self]
          unfold UltraOrder.get_side
          rfl
        · rw [hPdef, updf_apply_ne _ _ _ _ hj]
      have hPq : ∀ j, j ≠ i → (P j).quantity = (b.pool j).quantity := by
        intro j hj
        rw [hPdef, updf_apply_ne _ _ _ _ hj]
      have hPqi : (P i).quantity = q' := by
        rw [hPdef, updf_apply_self]
      have hlevB : ∀ (s : Bool) (idx : Nat),
          ({ UltraBook.setLevel b s0 idx0 LV with pool := P } : UltraBook).levels
            s idx = if s = s0 ∧ idx = idx0 then LV else b.levels s idx := by
        intro s idx
        rw [levels_set_pool, levels_setLevel]
      refine ⟨ch, ?_, ?_, hnd, hdisj, ?_, ?_, ?_⟩
      · intro s idx
        dsimp only
        rw [hlevB s idx]
        by_cases hcase : s = s0 ∧ idx = idx0
        · obtain ⟨hs, hx⟩ := hcase
          subst hs
          subst hx
          rw [if_pos ⟨rfl, rfl⟩]
          have hfst : LV.first_order = (b.levels s0 idx0).first_order := by
            rw [hLV]
          rw [hfst]
          exact isChain_congr b.pool P _ _ (fun j _ => hPnext j) (hchain s0 idx0)
        · rw [if_neg hcase]
          exact isChain_congr b.pool P _ _ (fun j _ => hPnext j) (hchain s idx)
      · intro s idx j hj
        dsimp only
        rw [setLevel_stack_top, hPprice j, hPside j]
        exact hmem s idx j hj
      · intro s idx
        dsimp only
        rw [hlevB s idx]
        by_cases hcase : s = s0 ∧ idx = idx0
        · obtain ⟨hs, hx⟩ := hcase
          subst hs
          subst hx
          rw [if_pos ⟨rfl, rfl⟩]
          have hpoldi : (fun j => decide (0 < (b.pool j).quantity)) i = true := by
            simpa using hq
          have hup := countP_update (ch s0 idx0) i (hnd s0 idx0) hiMem
            (fun j => decide (0 < (b.pool j).quantity))
            (fun j => decide (0 < (P j).quantity))
            (fun j _ hji => by simp only [hPq j hji])
          have hcpos : 0 < (ch s0 idx0).countP
              (fun j => decide (0 < (b.pool j).quantity)) :=
            List.countP_pos.mpr ⟨i, hiMem, hpoldi⟩
          have hcnt := hcount s0 idx0
          have hclt := hlt s0 idx0
          have hLVcnt : LV.order_count =
              if q' = 0 then sub16 (b.levels s0 idx0).order_count 1
              else (b.levels s0 idx0).order_count := by
            rw [hLV]
          rw [hLVcnt]
          by_cases hq0 : q' = 0
          · rw [if_pos hq0]
            have hpnewi : (fun j => decide (0 < (P j).quantity)) i = false := by
              simp [hPqi, hq0]
            rw [hpoldi, hpnewi] at hup
            simp at hup
            rw [hcnt] at hclt ⊢
            rw [sub16_one _ (by omega) (by omega)]
            omega
          · rw [if_neg hq0]
            have hpnewi : (fun j => decide (0 < (P j).quantity)) i = true := by
              simp only [hPqi]
              simpa using Nat.pos_of_ne_zero hq0
            rw [hpoldi, hpnewi] at hup
            simp at hup
            rw [hcount s0 idx0]
            omega
        · rw [if_neg hcase]
          rw [hcount s idx]
          apply countP_congr_mem
          intro a ha
          have hai : a ≠ i := by
            intro hcontra
            subst hcontra
            exact hcase ⟨(hdisj s idx s0 idx0 a ha hiMem).1,
              (hdisj s idx s0 idx0 a ha hiMem).2⟩
          simp only [hPq a hai]
      · intro s idx
        dsimp only
        rw [hlevB s idx]
        by_cases hcase : s = s0 ∧ idx = idx0
        · rw [if_pos hcase]
          have hLVcnt : LV.order_count =
              if q' = 0 then sub16 (b.levels s0 idx0).order_count 1
              else (b.levels s0 idx0).order_count := by
            rw [hLV]
          rw [hLVcnt]
          by_cases hq0 : q' = 0
          · rw [if_pos hq0]
            exact sub16_lt _ _
          · rw [if_neg hq0]
            exact hlt s0 idx0
        · rw [if_neg hcase]
          exact hlt s idx
      · intro e j hej
        dsimp only
        rw [hPside j, hPprice j]
        have hbe : (({ UltraBook.setLevel b s0 idx0 LV with pool := P } :
            UltraBook).entries e) = b.entries e := by
          have h1 : ({ UltraBook.setLevel b s0 idx0 LV with pool := P } :
              UltraBook).entries = (UltraBook.setLevel b s0 idx0 LV).entries := rfl
          rw [h1, setLevel_entries]
        rw [hbe] at hej
        exact hhash e j hej

theorem ultraInv_del (b : UltraBook) (orderId : Nat)
    (hInv : UltraCountInv b) (hsafe : ultraTargetSafe b orderId = true) :
    UltraCountInv (ultra_deleteOrder b orderId) := by
  cases hf : ultra_find b.entries orderId with
  | none =>
      have hb : ultra_deleteOrder b orderId = b := by
        unfold ultra_deleteOrder
        rw [hf]
      rw [hb]
      exact hInv
  | some i =>
      obtain ⟨ch, hchain, hmem, hnd, hdisj, hcount, hlt, hhash⟩ := hInv
      have hq : 0 < (b.pool i).quantity := by
        unfold ultraTargetSafe at hsafe
        rw [hf] at hsafe
        simpa using hsafe
      obtain ⟨e0, he0⟩ := ultra_find_sound b.entries orderId i hf
      have hiMem := hhash e0 i he0
      rw [ultra_deleteOrder_eq b orderId i hf]
      set s0 := decide ((b.pool i).get_side = 'B') with hs0def
      set idx0 := ultra_price_to_index (b.pool i).price with hidx0def
      set P := updf b.pool i { b.pool i with quantity := 0 } with hPdef
      set LV := { b.levels s0 idx0 with
        total_quantity := sub32 (b.levels s0 idx0).total_quantity
          (b.pool i).quantity
        order_count := sub16 (b.levels s0 idx0).order_count 1 } with hLV
      have hPnext : ∀ j, (P j).next = (b.pool j).next := by
        intro j
        by_cases hj : j = i
        · subst hj
          rw [hPdef, updf_apply_self]
        · rw [hPdef, updf_apply_ne _ _ _ _ hj]
      have hPprice : ∀ j, (P j).price = (b.pool j).price := by
        intro j
        by_cases hj : j = i
        · subst hj
          rw [hPdef, updf_apply_self]
        · rw [hPdef, updf_apply_ne _ _ _ _ hj]
      have hPside : ∀ j, (P j).get_side = (b.pool j).get_side := by
        intro j
        by_cases hj : j = i
        · subst hj
          rw [hPdef, updf_apply_self]
          unfold UltraOrder.get_side
          rfl
        · rw [hPdef, updf_apply_ne _ _ _ _ hj]
      have hPq : ∀ j, j ≠ i → (P j).quantity = (b.pool j).quantity := by
        intro j hj
        rw [hPdef, updf_apply_ne _ _ _ _ hj]
      have hPqi : (P i).quantity = 0 := by
        rw [hPdef, updf_apply_self]
      have hlevB : ∀ (s : Bool) (idx : Nat),
          ({ UltraBook.setLevel b s0 idx0 LV with
              pool := P
              entries := ultra_remove b.entries orderId } : UltraBook).levels
            s idx = if s = s0 ∧ idx = idx0 then LV else b.levels s idx := by
        intro s idx
        rw [levels_set_pool_entries, levels_setLevel]
      refine ⟨ch, ?_, ?_, hnd, hdisj, ?_, ?_, ?_⟩
      · intro s idx
        dsimp only
        rw [hlevB s idx]
        by_cases hcase : s = s0 ∧ idx = idx0
        · obtain ⟨hs, hx⟩ := hcase
          subst hs
          subst hx
          rw [if_pos ⟨rfl, rfl⟩]
          have hfst : LV.first_order = (b.levels s0 idx0).first_order := by
            rw [hLV]
          rw [hfst]
          exact isChain_congr b.pool P _ _ (fun j _ => hPnext j) (hchain s0 idx0)
        · rw [if_neg hcase]
          exact isChain_congr b.pool P _ _ (fun j _ => hPnext j) (hchain s idx)
      · intro s idx j hj
        dsimp only
        rw [setLevel_stack_top, hPprice j, hPside j]
        exact hmem s idx j hj
      · intro s idx
        dsimp only
        rw [hlevB s idx]
        by_cases hcase : s = s0 ∧ idx = idx0
        · obtain ⟨hs, hx⟩ := hcase
          subst hs
          subst hx
          rw [if_pos ⟨rfl, rfl⟩]
          have hpoldi : (fun j => decide (0 < (b.pool j).quantity)) i = true := by
            simpa using hq
          have hpnewi : (fun j => decide (0 < (P j).quantity)) i = false := by
            simp [hPqi]
          have hup := countP_update (ch s0 idx0) i (hnd s0 idx0) hiMem
            (fun j => decide (0 < (b.pool j).quantity))
            (fun j => decide (0 < (P j).quantity))
            (fun j _ hji => by simp only [hPq j hji])
          have hcpos : 0 < (ch s0 idx0).countP
              (fun j => decide (0 < (b.pool j).quantity)) :=
            List.countP_pos.mpr ⟨i, hiMem, hpoldi⟩
          have hcnt := hcount s0 idx0
          have hclt := hlt s0 idx0
          have hLVcnt : LV.order_count = sub16 (b.levels s0 idx0).order_count 1 := by
            rw [hLV]
          rw [hLVcnt]
          rw [hpoldi, hpnewi] at hup
          simp at hup
          rw [hcnt] at hclt ⊢
          rw [sub16_one _ (by omega) (by omega)]
          omega
        · rw [if_neg hcase]
          rw [hcount s idx]
          apply countP_congr_mem
          intro a ha
          have hai : a ≠ i := by
            intro hcontra
            subst hcontra
            exact hcase ⟨(hdisj s idx s0 idx0 a ha hiMem).1,
              (hdisj s idx s0 idx0 a ha hiMem).2⟩
          simp only [hPq a hai]
      · intro s idx
        dsimp only
        rw [hlevB s idx]
        by_cases hcase : s = s0 ∧ idx = idx0
        · rw [if_pos hcase]
          have hLVcnt : LV.order_count = sub16 (b.levels s0 idx0).order_count 1 := by
            rw [hLV]
          rw [hLVcnt]
          exact sub16_lt _ _
        · rw [if_neg hcase]
          exact hlt s idx
      · intro e j hej
        dsimp only
        rw [hPside j, hPprice j]
        dsimp only at hej
        cases ultra_remove_shape b.entries orderId e with
        | inl hsame =>
            rw [hsame] at hej
            exact hhash e j hej
        | inr htomb =>
            rw [htomb] at hej
            cases hej

theorem ultraInv_add (b : UltraBook) (orderId : Nat) (side : Char) (q p : Nat)
    (hInv : UltraCountInv b) (hsafe : ultraAddSafe b side q p = true) :
    UltraCountInv (ultra_addOrder b orderId side q p) := by
  cases hf : ultra_find b.entries orderId with
  | some i =>
      have hb : ultra_addOrder b orderId side q p = b := by
        unfold ultra_addOrder
        rw [hf]
        simp
      rw [hb]
      exact hInv
  | none =>
      by_cases hcap : b.capacity ≤ b.stack_top
      · have hb : ultra_addOrder b orderId side q p = b := by
          unfold ultra_addOrder
          rw [hf]
          simp [hcap]
        rw [hb]
        exact hInv
      · obtain ⟨ch, hchain, hmem, hnd, hdisj, hcount, hlt, hhash⟩ := hInv
        have hsafe2 := hsafe
        unfold ultraAddSafe at hsafe2
        rw [Bool.and_eq_true] at hsafe2
        have hq32 : 0 < q % 2 ^ 32 := by simpa using hsafe2.1
        have hcntlt : (b.levels (decide (side = 'B'))
            (ultra_price_to_index (p % 2 ^ 32))).order_count < 2 ^ 16 - 1 := by
          simpa using hsafe2.2
        rw [ultra_addOrder_eq b orderId side q p hf (by omega)]
        set s0 := decide (side = 'B') with hs0def
        set idx0 := ultra_price_to_index (p % 2 ^ 32) with hidx0def
        set i := b.stack_top with hidef
        set ONew := { ({} : UltraOrder).set_id_side orderId side with
          quantity := q % 2 ^ 32
          price := p % 2 ^ 32
          next := (b.levels s0 idx0).first_order } with hONew
        set P := updf b.pool i ONew with hPdef
        set LV := ({
          total_quantity := ((b.levels s0 idx0).total_quantity + q % 2 ^ 32) % 2 ^ 32
          order_count := ((b.levels s0 idx0).order_count + 1) % 2 ^ 16
          first_order := some i } : UltraPriceLevel) with hLV
        have hPold : ∀ j, j ≠ i → P j = b.pool j := by
          intro j hj
          rw [hPdef, updf_apply_ne _ _ _ _ hj]
        have hPi : P i = ONew := by
          rw [hPdef, updf_apply_self]
        have hONside : ONew.get_side = if side = 'B' then 'B' else 'S' := by
          rw [hONew]
          have h1 : ({ ({} : UltraOrder).set_id_side orderId side with
              quantity := q % 2 ^ 32
              price := p % 2 ^ 32
              next := (b.levels s0 idx0).first_order } : UltraOrder).get_side =
              (({} : UltraOrder).set_id_side orderId side).get_side := rfl
          rw [h1, get_side_set_id_side]
        have hONprice : ONew.price = p % 2 ^ 32 := by
          rw [hONew]
        have hONqty : ONew.quantity = q % 2 ^ 32 := by
          rw [hONew]
        have hONnext : ONew.next = (b.levels s0 idx0).first_order := by
          rw [hONew]
        have hfresh : ∀ s idx, ∀ j ∈ ch s idx, j ≠ i := by
          intro s idx j hj
          have := (hmem s idx j hj).1
          omega
        have hsideB : (decide (ONew.get_side = 'B')) = s0 := by
          by_cases hsB : side = 'B' <;> simp [hONside, hsB, hs0def]
        have hlevB : ∀ (s : Bool) (idx : Nat),
            ({ UltraBook.setLevel b s0 idx0 LV with
                pool := P
                stack_top := i + 1
                entries := ultra_insert b.entries orderId i } : UltraBook).levels
              s idx = if s = s0 ∧ idx = idx0 then LV else b.levels s idx := by
          intro s idx
          rw [levels_set_pool_stack_entries, levels_setLevel]
        refine ⟨fun s idx => if s = s0 ∧ idx = idx0 then i :: ch s idx
          else ch s idx, ?_, ?_, ?_, ?_, ?_, ?_, ?_⟩
        · intro s idx
          dsimp only
          rw [hlevB s idx]
          by_cases hcase : s = s0 ∧ idx = idx0
          · obtain ⟨hs, hx⟩ := hcase
            subst hs
            subst hx
            rw [if_pos ⟨rfl, rfl⟩, if_pos ⟨rfl, rfl⟩]
            have hfst : LV.first_order = some i := by
              rw [hLV]
            rw [hfst]
            refine ⟨rfl, ?_⟩
            rw [hPi, hONnext]
            exact isChain_congr b.pool P _ _
              (fun j hj => by rw [hPold j (hfresh s0 idx0 j hj)])
              (hchain s0 idx0)
          · rw [if_neg hcase, if_neg hcase]
            exact isChain_congr b.pool P _ _
              (fun j hj => by rw [hPold j (hfresh s idx j hj)])
              (hchain s idx)
        · intro s idx j hj
          dsimp only
          dsimp only at hj
          by_cases hcase : s = s0 ∧ idx = idx0
          · rw [if_pos hcase] at hj
            cases List.mem_cons.mp hj with
            | inl hji =>
                subst hji
                refine ⟨by omega, ?_, ?_⟩
                · rw [hPi, hONprice, hcase.2]
                · rw [hPi]
                  rw [hONside]
                  by_cases hsB : side = 'B' <;>
                    simp [hsB, hcase.1, hs0def]
            | inr hjold =>
                have hji := hfresh s idx j hjold
                have hold := hmem s idx j hjold
                rw [hPold j hji]
                exact ⟨by omega, hold.2.1, hold.2.2⟩
          · rw [if_neg hcase] at hj
            have hji := hfresh s idx j hj
            have hold := hmem s idx j hj
            rw [hPold j hji]
            exact ⟨by omega, hold.2.1, hold.2.2⟩
        · intro s idx
          dsimp only
          by_cases hcase : s = s0 ∧ idx = idx0
          · rw [if_pos hcase]
            exact List.nodup_cons.mpr ⟨fun hmem' => hfresh s idx i hmem' rfl,
              hnd s idx⟩
          · rw [if_neg hcase]
            exact hnd s idx
        · intro s idx s' idx' j hj hj'
          by_cases hji : j = i
          · have hforce : ∀ (t : Bool) (tix : Nat),
                j ∈ (if t = s0 ∧ tix = idx0 then i :: ch t tix else ch t tix) →
                t = s0 ∧ tix = idx0 := by
              intro t tix hmem'
              by_cases hc : t = s0 ∧ tix = idx0
              · exact hc
              · rw [if_neg hc] at hmem'
                exact absurd hji (hfresh t tix j hmem')
            have h1 := hforce s idx hj
            have h2 := hforce s' idx' hj'
            exact ⟨h1.1.trans h2.1.symm, h1.2.trans h2.2.symm⟩
          · have hold : ∀ (t : Bool) (tix : Nat),
                j ∈ (if t = s0 ∧ tix = idx0 then i :: ch t tix else ch t tix) →
                j ∈ ch t tix := by
              intro t tix hmem'
              by_cases hc : t = s0 ∧ tix = idx0
              · rw [if_pos hc] at hmem'
                cases List.mem_cons.mp hmem' with
                | inl h => exact absurd h hji
                | inr h => exact h
              · rw [if_neg hc] at hmem'
                exact hmem'
            exact hdisj s idx s' idx' j (hold s idx hj) (hold s' idx' hj')
        · intro s idx
          dsimp only
          rw [hlevB s idx]
          by_cases hcase : s = s0 ∧ idx = idx0
          · obtain ⟨hs, hx⟩ := hcase
            subst hs
            subst hx
            rw [if_pos ⟨rfl, rfl⟩, if_pos ⟨rfl, rfl⟩]
            have hLVcnt : LV.order_count =
                ((b.levels s0 idx0).order_count + 1) % 2 ^ 16 := by
              rw [hLV]
            have hcope : (ch s0 idx0).countP
                (fun j => decide (0 < (P j).quantity)) =
                (ch s0 idx0).countP
                (fun j => decide (0 < (b.pool j).quantity)) := by
              apply countP_congr_mem
              intro a ha
              simp only [hPold a (hfresh s0 idx0 a ha)]
            rw [hLVcnt, List.countP_cons, hcope, ← hcount s0 idx0]
            simp only [hPi, hONqty]
            have hdec : decide (0 < q % 2 ^ 32) = true := by
              simpa using hq32
            rw [hdec, Nat.mod_eq_of_lt (by omega)]
            simp
          · rw [if_neg hcase, if_neg hcase]
            rw [hcount s idx]
            apply countP_congr_mem
            intro a ha
            simp only [hPold a (hfresh s idx a ha)]
        · intro s idx
          dsimp only
          rw [hlevB s idx]
          by_cases hcase : s = s0 ∧ idx = idx0
          · rw [if_pos hcase]
            have hLVcnt : LV.order_count =
                ((b.levels s0 idx0).order_count + 1) % 2 ^ 16 := by
              rw [hLV]
            rw [hLVcnt]
            exact Nat.mod_lt _ (by norm_num)
          · rw [if_neg hcase]
            exact hlt s idx
        · intro e j hej
          dsimp only
          dsimp only at hej
          cases ultra_insert_shape b.entries orderId i e with
          | inl hsame =>
              rw [hsame] at hej
              have hjch := hhash e j hej
              have hji : j ≠ i :=
                hfresh _ _ j hjch
              rw [hPold j hji]
              by_cases hc : (decide ((b.pool j).get_side = 'B')) = s0 ∧
                  ultra_price_to_index (b.pool j).price = idx0
              · rw [if_pos hc]
                exact List.mem_cons_of_mem i hjch
              · rw [if_neg hc]
                exact hjch
          | inr hnew =>
              rw [hnew] at hej
              have hji : j = i := by
                simpa using hej.symm
              subst hji
              rw [hPi, hsideB, hONprice]
              rw [if_pos ⟨rfl, rfl⟩]
              exact List.mem_cons_self i (ch s0 idx0)

theorem ultraInv_repl (b : UltraBook) (oldId newId newQty newPrice : Nat)
    (hInv : UltraCountInv b)
    (hsafe : ultraOpSafe b (.repl oldId newId newQty newPrice) = true) :
    UltraCountInv (ultra_replaceOrder b oldId newId newQty newPrice) := by
  cases hf : ultra_find b.entries oldId with
  | none =>
      have hb : ultra_replaceOrder b oldId newId newQty newPrice = b := by
        unfold ultra_replaceOrder
        rw [hf]
      rw [hb]
      exact hInv
  | some i =>
      rw [ultra_replace_is_delete_then_add b oldId newId newQty newPrice i hf]
      unfold ultraOpSafe at hsafe
      rw [Bool.and_eq_true] at hsafe
      obtain ⟨hts, hadd⟩ := hsafe
      rw [hf] at hadd
      dsimp only at hadd
      exact ultraInv_add _ newId _ newQty newPrice
        (ultraInv_del b oldId hInv hts) hadd

theorem ultraInv_applyOp (b : UltraBook) (op : UltraOp)
    (hInv : UltraCountInv b) (hsafe : ultraOpSafe b op = true) :
    UltraCountInv (applyUltraOp b op) := by
  cases op with
  | add orderId side quantity price =>
      exact ultraInv_add b orderId side quantity price hInv hsafe
  | exec orderId executed_qty =>
      exact ultraInv_exec b orderId executed_qty hInv hsafe
  | del orderId => exact ultraInv_del b orderId hInv hsafe
  | repl o n nq np => exact ultraInv_repl b o n nq np hInv hsafe

theorem ultraInv_mkEmpty (cap : Nat) : UltraCountInv (UltraBook.mkEmpty cap) := by
  refine ⟨fun _ _ => [], ?_, ?_, ?_, ?_, ?_, ?_, ?_⟩
  · intro s idx
    cases s <;> trivial
  · intro s idx i hi
    exact absurd hi (List.not_mem_nil i)
  · intro s idx
    exact List.nodup_nil
  · intro s idx s' idx' i hi _
    exact absurd hi (List.not_mem_nil i)
  · intro s idx
    cases s <;> rfl
  · intro s idx
    cases s <;> norm_num [UltraBook.mkEmpty, UltraBook.levels]
  · intro e j hej
    simp [UltraBook.mkEmpty] at hej

theorem ultraInv_run (ops : List UltraOp) : ∀ (b : UltraBook),
    UltraCountInv b → ultraSafeRun b ops = true →
    UltraCountInv (applyUltraOps b ops) := by
  induction ops with
  | nil =>
      intro b hInv _
      exact hInv
  | cons op rest ih =>
      intro b hInv hsafe
      unfold ultraSafeRun at hsafe
      rw [Bool.and_eq_true] at hsafe
      exact ih _ (ultraInv_applyOp b op hInv hsafe.1) hsafe.2

theorem ultraSafeRun_append (l1 l2 : List UltraOp) : ∀ b,
    ultraSafeRun b (l1 ++ l2) = true → ultraSafeRun b l1 = true := by
  induction l1 with
  | nil =>
      intro b _
      rfl
  | cons op rest ih =>
      intro b h
      rw [List.cons_append] at h
      unfold ultraSafeRun at h ⊢
      rw [Bool.and_eq_true] at h ⊢
      exact ⟨h.1, ih _ h.2⟩

theorem ultraCount_eq_chain (b : UltraBook) (hInv : UltraCountInv b)
    (s : Bool) (idx : Nat) :
    (b.levels s idx).order_count =
      (ultraChain b.pool (b.levels s idx).first_order b.stack_top).countP
        (fun i => decide (0 < (b.pool i).quantity)) := by
  obtain ⟨ch, hchain, hmem, hnd, _, hcount, _, _⟩ := hInv
  have hlen : (ch s idx).length ≤ b.stack_top :=
    nodup_bounded_length_le _ _ (hnd s idx) (fun i hi => (hmem s idx i hi).1)
  rw [ultraChain_of_isChain b.pool (ch s idx) _ b.stack_top (hchain s idx) hlen]
  exact hcount s idx

/-- C1 (corrected): the stored `order_count` does not track the length of
the level's list — orders executed down to zero quantity stay linked
(`ultra_executeOrder` never unlinks, see the counterexample) — but it does
track the number of orders with positive remaining quantity on the list.
For every safe operation sequence (no zero-quantity adds, no `uint16`
count wrap, and no execute/delete/replace aimed at an already-zeroed
order), after every prefix the `order_count` of every price level of the
`UltraOrderBook` equals the number of positive-quantity orders on that
level's intrusive list. -/
theorem C1_level_count (cap : Nat) (ops pre suf : List UltraOp)
    (hsplit : ops = pre ++ suf)
    (hsafe : ultraSafeRun (UltraBook.mkEmpty cap) ops = true)
    (s : Bool) (idx : Nat) :
    ((applyUltraOps (UltraBook.mkEmpty cap) pre).levels s idx).order_count =
      (ultraChain (applyUltraOps (UltraBook.mkEmpty cap) pre).pool
        ((applyUltraOps (UltraBook.mkEmpty cap) pre).levels s idx).first_order
        (applyUltraOps (UltraBook.mkEmpty cap) pre).stack_top).countP
        (fun i => decide
          (0 < ((applyUltraOps (UltraBook.mkEmpty cap) pre).pool i).quantity)) := by
  subst hsplit
  have hpre := ultraSafeRun_append pre suf _ hsafe
  exact ultraCount_eq_chain _ (ultraInv_run pre _ (ultraInv_mkEmpty cap) hpre) s idx

/-- C1 witness: add bid 1 (quantity 100 at price 50000) then execute 60 of
it; level 10000 of the bid side has one live order and `order_count = 1`. -/
theorem C1_level_count_witness :
    ((applyUltraOps (UltraBook.mkEmpty 100) c1Ops).levels true 10000).order_count =
      (ultraChain (applyUltraOps (UltraBook.mkEmpty 100) c1Ops).pool
        ((applyUltraOps (UltraBook.mkEmpty 100) c1Ops).levels true
          10000).first_order
        (applyUltraOps (UltraBook.mkEmpty 100) c1Ops).stack_top).countP
        (fun i => decide
          (0 < ((applyUltraOps (UltraBook.mkEmpty 100) c1Ops).pool i).quantity)) :=
  C1_level_count 100 c1Ops c1Ops [] (by simp) (by decide) true 10000

/-- C1 counterexample: the safe sequence add(1, B, 100, 50000) then
execute(1, 100) zeroes the only order; `order_count` becomes 0 but the
order stays on the level's list, whose length is 1 — the claimed
`order_count = list length` is false. -/
theorem C1_counterexample :
    ultraSafeRun (UltraBook.mkEmpty 1000000)
      [.add 1 'B' 100 50000, .exec 1 100] = true ∧
    applyUltraOps (UltraBook.mkEmpty 1000000)
      [.add 1 'B' 100 50000, .exec 1 100] = bZero ∧
    (bZero.levels true 10000).order_count = 0 ∧
    (ultraChain bZero.pool (bZero.levels true 10000).first_order
      bZero.stack_top).length = 1 :=
  ⟨by decide, rfl, by decide, by decide⟩

end NasdaqOB
